import Mathlib

/-!
A shallow embedding of the RDF-to-CSV reverse-RML converter
(`src/rdf_to_csv/RDFtoCSV.py`) together with theorems about its
extraction pipeline.  Python strings are modelled as lists of
characters (`Str`), Python dicts as insertion-ordered association
lists, the RDF graph as a list of quads, and the RML mapping as the
result rows of the converter's fixed SPARQL queries.
-/

namespace RDFtoCSV

deriving instance DecidableEq for Except

/-- Strings are modelled as lists of characters. -/
abbrev Str := List Char

/-- The character `{` (written via its code point). -/
def lbrace : Char := Char.ofNat 123

/-- The character `}` (written via its code point). -/
def rbrace : Char := Char.ofNat 125

/-- ASCII lower-casing of one character (code points 65-90 shift by 32),
modelling `str.lower()` on the ASCII inputs this development uses. -/
def lowerChar (c : Char) : Char :=
  if 65 ≤ c.toNat ∧ c.toNat ≤ 90 then Char.ofNat (c.toNat + 32) else c

/-- ASCII lower-casing of a string, modelling `str.lower()`. -/
def lowerStr (s : Str) : Str := s.map lowerChar

/-- Python `str.split(sep)` for a single-character separator; the result is
never empty and keeps empty parts, like Python's. -/
def splitOnChar (sep : Char) : Str → List Str
  | [] => [[]]
  | c :: cs =>
    match splitOnChar sep cs with
    | [] => [[]]
    | h :: t => if c = sep then [] :: h :: t else (c :: h) :: t

/-- Python whitespace characters recognised by `str.strip()` (ASCII part). -/
def isPySpace (c : Char) : Bool :=
  c = ' ' || c = '\t' || c = '\n' || c = '\r' || c = Char.ofNat 11 || c = Char.ofNat 12

/-- Python `str.strip()`: drop leading and trailing whitespace. -/
def pyStrip (s : Str) : Str :=
  ((s.dropWhile isPySpace).reverse.dropWhile isPySpace).reverse

/-- Substring test, modelling Python's `pat in s`. -/
def isSubstrOf (pat : Str) : Str → Bool
  | [] => pat.isPrefixOf []
  | c :: cs => pat.isPrefixOf (c :: cs) || isSubstrOf pat cs

/-- Hex digit value of a character, for percent-decoding. -/
def hexVal (c : Char) : Option Nat :=
  if '0' ≤ c ∧ c ≤ '9' then some (c.toNat - '0'.toNat)
  else if 'a' ≤ c ∧ c ≤ 'f' then some (c.toNat - 'a'.toNat + 10)
  else if 'A' ≤ c ∧ c ≤ 'F' then some (c.toNat - 'A'.toNat + 10)
  else none

/-- Percent-decoding, modelling `urllib.parse.unquote` on the
single-byte (ASCII) escapes this development uses: each `%XY` with two
hex digits becomes the character with code `16*X + Y`; malformed escapes
are kept verbatim. -/
def pyUnquote : Str → Str
  | [] => []
  | '%' :: a :: b :: rest =>
    match hexVal a, hexVal b with
    | some x, some y => Char.ofNat (16 * x + y) :: pyUnquote rest
    | _, _ => '%' :: pyUnquote (a :: b :: rest)
  | c :: rest => c :: pyUnquote rest

/-- Replace every space by an underscore, modelling
`column.replace(' ', '_')`. -/
def normSpaces (s : Str) : Str :=
  s.map (fun c => if c = ' ' then '_' else c)

/-- Python `str.replace(pat, rep)` (leftmost, non-overlapping), with fuel;
`pyReplace` supplies enough fuel for any non-empty pattern. -/
def pyReplaceAux (pat rep : Str) : Nat → Str → Str
  | 0, s => s
  | _ + 1, [] => []
  | fuel + 1, c :: cs =>
    if pat.isPrefixOf (c :: cs) then
      rep ++ pyReplaceAux pat rep fuel ((c :: cs).drop pat.length)
    else
      c :: pyReplaceAux pat rep fuel cs

/-- Python `s.replace(pat, rep)` for a non-empty pattern. -/
def pyReplace (pat rep s : Str) : Str := pyReplaceAux pat rep s.length s

/-- Split `s` at before-first occurrence of `sep`: the part before, and
(if `sep` occurs) the part after. -/
def firstSplit (sep : Char) : Str → Str × Option Str
  | [] => ([], none)
  | c :: cs =>
    if c = sep then ([], some cs)
    else
      let (pre, post) := firstSplit sep cs
      (c :: pre, post)

/-- Scheme-character test for `urlparse`: letters, digits, `+`, `-`, `.`. -/
def isSchemeChar (c : Char) : Bool :=
  ('a' ≤ c && c ≤ 'z') || ('A' ≤ c && c ≤ 'Z') || ('0' ≤ c && c ≤ '9') ||
  c = '+' || c = '-' || c = '.'

/-- A valid URL scheme: non-empty, starts with a letter, scheme chars only. -/
def validScheme (s : Str) : Bool :=
  match s with
  | [] => false
  | c :: _ => (('a' ≤ c && c ≤ 'z') || ('A' ≤ c && c ≤ 'Z')) && s.all isSchemeChar

/-- The path component of a URL, modelling `urllib.parse.urlparse(u).path`:
strip a valid `scheme:`, strip a `//netloc`, strip `?query` and
`#fragment`. -/
def pyUrlPath (u : Str) : Str :=
  let afterScheme :=
    match firstSplit ':' u with
    | (pre, some rest) => if validScheme pre then rest else u
    | (_, none) => u
  let afterNetloc :=
    match afterScheme with
    | '/' :: '/' :: rest => rest.dropWhile (fun c => c ≠ '/' && c ≠ '?' && c ≠ '#')
    | other => other
  let (beforeFrag, _) := firstSplit '#' afterNetloc
  let (path, _) := firstSplit '?' beforeFrag
  path

/-- Scan forward for the closing `}` of a placeholder (the non-greedy
span of `\x7b(.*?)\x7d`): returns the span and the remaining input, or
`none` when no `}` follows (or, without DOTALL, when a newline
intervenes). -/
def grabPH (allowNl : Bool) : Str → Option (Str × Str)
  | [] => none
  | c :: cs =>
    if c = rbrace then some ([], cs)
    else if !allowNl && c = '\n' then none
    else
      match grabPH allowNl cs with
      | some (span, rest) => some (c :: span, rest)
      | none => none

/-- Fueled scan of all placeholder spans, modelling
`re.findall(r'\x7b(.*?)\x7d', template)`: at each `{` the shortest
admissible span up to a `}` is taken and scanning resumes after it;
a `{` with no admissible closing brace is skipped. -/
def findPHsAux (allowNl : Bool) : Nat → Str → List Str
  | 0, _ => []
  | _ + 1, [] => []
  | fuel + 1, c :: cs =>
    if c = lbrace then
      match grabPH allowNl cs with
      | some (span, rest) => span :: findPHsAux allowNl fuel rest
      | none => findPHsAux allowNl fuel cs
    else
      findPHsAux allowNl fuel cs

/-- Placeholder names of a template, as found by
`re.findall(r'\x7b(.*?)\x7d', template)` (no DOTALL; used in
`extract_data` and `populate_template_fields`). -/
def findPlaceholders (template : Str) : List Str :=
  findPHsAux false template.length template

/-- Placeholder names of a template with `re.DOTALL` (used in
`extract_columns_from_template`). -/
def findPlaceholdersDotall (template : Str) : List Str :=
  findPHsAux true template.length template

/-- One alternating piece of the compiled subject-template pattern:
a literal run of characters, or one `([^/;]+)` capture group. -/
inductive Seg where
  | lit : Str → Seg
  | hole : Seg
deriving DecidableEq, Repr

/-- The capture-group marker the converter substitutes for each
placeholder before compiling the pattern. -/
def marker : Str := ("([^/;]+)").data

/-- Fueled splitting of a string at the leftmost non-overlapping
occurrences of a non-empty separator (Python-style). -/
def pySplitStrAux (sep : Str) : Nat → Str → Str → List Str
  | 0, acc, s => [acc.reverse ++ s]
  | fuel + 1, acc, s =>
    if sep.isPrefixOf s then
      acc.reverse :: pySplitStrAux sep fuel [] (s.drop sep.length)
    else
      match s with
      | [] => [acc.reverse]
      | c :: cs => pySplitStrAux sep fuel (c :: acc) cs

/-- Split a string at each occurrence of a non-empty separator. -/
def pySplitStr (sep s : Str) : List Str := pySplitStrAux sep (s.length + 1) [] s

/-- Interleave the literal parts around the capture groups back into an
alternating segment list. -/
def interleaveSegs : List Str → List Seg
  | [] => []
  | [p] => [Seg.lit p]
  | p :: rest => Seg.lit p :: Seg.hole :: interleaveSegs rest

/-- The compiled matching pattern of a template, modelling
`populate_template_fields`'s construction: every `\x7b`placeholder`\x7d`
is replaced by `([^/;]+)`, all literal text in between is escaped (and
hence matches itself), and each marker occurrence becomes a capture
group. -/
def bindPattern (tmpl : Str) : List Seg :=
  let pat := (findPlaceholders tmpl).foldl
    (fun acc ph => pyReplace (lbrace :: ph ++ [rbrace]) marker acc) tmpl
  interleaveSegs (pySplitStr marker pat)

/-- A character the capture group `[^/;]+` accepts. -/
def okChar (c : Char) : Bool := c ≠ '/' && c ≠ ';'

/-- The candidate capture lengths `[n, n-1, ..., 1]`, in the greedy
(longest-first) order the regex engine tries them. -/
def countdown : Nat → List Nat
  | 0 => []
  | k + 1 => (k + 1) :: countdown k

/-- Greedy matching of one `([^/;]+)` group followed by a continuation:
try the longest admissible capture first and backtrack. -/
def greedyPick (f : Str → Option (List Str)) (cs : Str) (maxLen : Nat) :
    Option (List Str) :=
  (countdown maxLen).findSome? fun k => (f (cs.drop k)).map fun vs => cs.take k :: vs

/-- Anchored-at-start matching of an alternating pattern against a
string, modelling `re.match` on the compiled template pattern: literals
must match verbatim, groups are greedy with backtracking, and trailing
input may remain.  Returns the captured group values in order. -/
def matchSegs : List Seg → Str → Option (List Str)
  | [], _ => some []
  | .lit l :: rest, cs =>
    if l.isPrefixOf cs then matchSegs rest (cs.drop l.length) else none
  | .hole :: rest, cs => greedyPick (matchSegs rest) cs (cs.takeWhile okChar).length

/-- Substitute values for the holes of a segment list, left to right. -/
def renderSegs : List Seg → List Str → Str
  | [], _ => []
  | .lit l :: rest, vs => l ++ renderSegs rest vs
  | .hole :: rest, [] => renderSegs rest []
  | .hole :: rest, v :: vs => v ++ renderSegs rest vs

/-- Number of capture groups in a segment list. -/
def numHoles : List Seg → Nat
  | [] => 0
  | .lit _ :: rest => numHoles rest
  | .hole :: rest => numHoles rest + 1

/-- The template binding operation of the Template Engine: match the
subject string against the compiled template pattern and percent-decode
each captured value (as `populate_template_fields` does). -/
def bindTemplate (tmpl s : Str) : Option (List Str) :=
  (matchSegs (bindPattern tmpl) s).map (List.map pyUnquote)

/-- Modelled from the spec: a subject URI "generated by binding a
template with values V" — each value is substituted for its placeholder
occurrence, in template order.  (The forward RML materialisation is not
part of this repository.) -/
def generateFromTemplate (tmpl : Str) (vs : List Str) : Str :=
  renderSegs (bindPattern tmpl) vs

/-- A literal segment that begins with one of the characters `[^/;]+`
cannot consume, so a greedy capture stops exactly in front of it. -/
def startsSep : Str → Bool
  | [] => false
  | c :: _ => c = '/' || c = ';'

/-- A value the round-trip hypothesis allows: non-empty and free of the
characters the capture group excludes. -/
def goodVal (v : Str) : Bool := !v.isEmpty && v.all okChar

/-- Separation condition on a compiled pattern: every capture group is
followed either by a literal starting with `/` or `;`, or only by the
final literal (or nothing); no two groups are adjacent. -/
def goodSegs : List Seg → Bool
  | [] => true
  | [Seg.hole] => true
  | [Seg.hole, Seg.lit _] => true
  | Seg.hole :: Seg.lit l :: rest => startsSep l && goodSegs (Seg.lit l :: rest)
  | Seg.hole :: Seg.hole :: _ => false
  | Seg.lit _ :: rest => goodSegs rest

/-- An RDF subject: a URI or a blank node (rdflib `URIRef` / `BNode`). -/
inductive RdfSubj where
  | uri : Str → RdfSubj
  | bnode : Str → RdfSubj
deriving DecidableEq, Repr

/-- An RDF object: a blank node, a URI, or a literal with optional
datatype URI and optional language tag (rdflib `BNode` / `URIRef` /
`Literal`). -/
inductive RdfObj where
  | bnode : Str → RdfObj
  | uri : Str → RdfObj
  | lit : Str → Option Str → Option Str → RdfObj
deriving DecidableEq, Repr

/-- One quad of the graph store (the graph-context component is never
read by `extract_data`, so it is omitted). -/
structure Quad where
  s : RdfSubj
  p : Str
  o : RdfObj
deriving DecidableEq, Repr

/-- `str(term)` on an RDF term in object position: the lexical value of
a literal, the URI string, or the blank-node identifier. -/
def strOfObj : RdfObj → Str
  | .bnode b => b
  | .uri u => u
  | .lit v _ _ => v

/-- One result row of the datatype-map SPARQL query in `extract_data`
(`?objectMap ?predicate ?datatypeTemplate`, the last OPTIONAL). -/
structure DtRow where
  objectMap : Str
  predicate : Str
  datatypeTemplate : Option Str
deriving DecidableEq, Repr

/-- The mapping store, as the rows its three fixed SPARQL queries
return: subject-map rows (`?template ?termType`, the latter OPTIONAL),
datatype rows, and, per predicate URI, the object-template rows keyed by
predicate (first row used). -/
structure Mapping where
  subjectRows : List (Str × Option Str)
  dtRows : List DtRow
  objTemplates : List (Str × Str)
deriving Repr

/-- First object-template query result for a predicate, modelling the
per-quad `object_template_results` query (its first row is used). -/
def lookupObjTemplate (m : Mapping) (predicate : Str) : Option Str :=
  (m.objTemplates.find? fun kv => kv.1 = predicate).map (·.2)

/-- A record: an insertion-ordered association list from column name to
value, modelling a Python dict (keys are unique by construction). -/
abbrev Record := List (Str × Str)

/-- Dict lookup: the binding of a key, if present. -/
def recLookup : Record → Str → Option Str
  | [], _ => none
  | kv :: r, k => if kv.1 = k then some kv.2 else recLookup r k

/-- Dict membership. -/
def recHas : Record → Str → Bool
  | [], _ => false
  | kv :: r, k => kv.1 = k || recHas r k

/-- Dict update `r[k] = v`: overwrite in place if the key exists
(keeping its position), else append. -/
def recSet : Record → Str → Str → Record
  | [], k, v => [(k, v)]
  | kv :: r, k, v => if kv.1 = k then (k, v) :: r else kv :: recSet r k v

/-- A Python dict comprehension `(c: "" for c in cols)`: one entry per
distinct column, in first-occurrence order. -/
def dictOfColumns : List Str → Record
  | [] => []
  | c :: cs => (c, []) :: (dictOfColumns cs).filter fun kv => kv.1 ≠ c

/-- The records table: subject identifier to record, insertion-ordered. -/
abbrev Records := List (Str × Record)

/-- Lookup of a subject's record. -/
def recsLookup : Records → Str → Option Record
  | [], _ => none
  | kv :: rs, sid => if kv.1 = sid then some kv.2 else recsLookup rs sid

/-- Membership of a subject in the records table. -/
def recsHas : Records → Str → Bool
  | [], _ => false
  | kv :: rs, sid => kv.1 = sid || recsHas rs sid

/-- Apply a function to the record of an (existing) subject in place. -/
def recsUpdate : Records → Str → (Record → Record) → Records
  | [], _, _ => []
  | kv :: rs, sid, f => if kv.1 = sid then (sid, f kv.2) :: rs else kv :: recsUpdate rs sid f

/-- The short form of a predicate URI: the part after the last `#` if
one occurs, else after the last `/`. -/
def predShort (p : Str) : Str :=
  if p.contains '#' then (splitOnChar '#' p).getLastD []
  else (splitOnChar '/' p).getLastD []

/-- The local name of a datatype URI: the part after the last `#` if one
occurs, else the whole string. -/
def hashLocal (s : Str) : Str :=
  if s.contains '#' then (splitOnChar '#' s).getLastD [] else s

/-- `resolve_blank_node`: the synthetic string for a blank node in
object position. -/
def resolve_blank_node (node : Str) : Str := ("blank_node_").data ++ node

/-- The subject identifier of a quad: blank nodes get the `_:blank_`
marker, URIs are used as is. -/
def subjectIdOf : RdfSubj → Str
  | .bnode b => ("_:blank_").data ++ b
  | .uri u => u

/-- The object value `extract_data` computes for a quad's object:
synthetic string for blank nodes; for URIs, the percent-decoded last
path segment (or the whole URI when the path is empty); for literals,
the lexical value. -/
def objectValueOf : RdfObj → Str
  | .bnode b => resolve_blank_node b
  | .uri u =>
    let path := pyUrlPath u
    if path ≠ [] then pyUnquote ((splitOnChar '/' path).getLastD []) else pyUnquote u
  | .lit v _ _ => v

/-- The datatype local name `extract_data` computes when the object is a
literal: the local name of its datatype URI, defaulting to `string` when
the literal carries none.  (In the source this value is the local
variable `datatype_name`, which persists in `locals()` across loop
iterations; the model threads it through the state.) -/
def literalDatatypeName (dt : Option Str) : Str :=
  hashLocal (match dt with | some d => d | none => ("string").data)

/-- The truthy language tag of an object, modelling
`hasattr(o, 'language') and o.language`: only literals have one, and an
empty tag is falsy. -/
def langOf : RdfObj → Option Str
  | .lit _ _ (some l) => if l = [] then none else some l
  | _ => none

/-- `populate_template_fields`: re-derive template-bound fields from the
subject identifier.  For blank-node subjects, placeholders are matched
case-insensitively against the predicate local names (split on `/` only)
of the blank node's own quads and receive the raw object string; for
URIs, the subject is matched against the compiled template pattern and
each placeholder (spaces normalised to underscores) receives the
percent-decoded captured value. -/
def populate_template_fields (subjectTemplate : Str) (graph : List Quad)
    (subjectId : Str) (record : Record) : Record :=
  if subjectTemplate = [] then record
  else
    let placeholders := findPlaceholders subjectTemplate
    if placeholders = [] then record
    else if (("_:blank_").data).isPrefixOf subjectId then
      let bid := pyReplace (("_:blank_").data) [] subjectId
      (graph.filter fun q => q.s = RdfSubj.bnode bid).foldl
        (fun r q =>
          let pshort := (splitOnChar '/' q.p).getLastD []
          placeholders.foldl
            (fun r ph =>
              if lowerStr ph = lowerStr pshort then recSet r ph (strOfObj q.o) else r)
            r)
        record
    else
      match matchSegs (bindPattern subjectTemplate) subjectId with
      | none => record
      | some vals =>
        (placeholders.zip vals).foldl
          (fun r pv => recSet r (normSpaces pv.1) (pyUnquote pv.2)) record

/-- Build the datatype map from the datatype query rows, as the loop at
the top of `extract_data` does; also returns the last `datatype_name`
local that loop leaves behind (rows whose `?datatypeTemplate` was unbound
stringify to `None` and are skipped). -/
def build_datatype_map (rows : List DtRow) : Record × Option Str :=
  rows.foldl
    (fun acc row =>
      let dtStr := match row.datatypeTemplate with
        | some s => s
        | none => ("None").data
      if dtStr ≠ ("None").data then
        let name := hashLocal dtStr
        (recSet acc.1 (predShort row.predicate) name, some name)
      else acc)
    ([], none)

/-- The mutable state of `extract_data`'s quad loop: the growing column
list, the records table, and the lingering `datatype_name` local. -/
structure ExtState where
  columns : List Str
  records : Records
  lastDT : Option Str
deriving Repr

/-- Per-quad values `extract_data` computes before touching the state. -/
structure QuadCtx where
  sid : Str
  pshort : Str
  oval : Str
deriving Repr

/-- Compute the per-quad values and the updated `datatype_name` local. -/
def quadCtx (lastDT : Option Str) (q : Quad) : QuadCtx × Option Str :=
  (⟨subjectIdOf q.s, predShort q.p, objectValueOf q.o⟩,
   match q.o with
   | .lit _ dt _ => some (literalDatatypeName dt)
   | _ => lastDT)

/-- Initialize the record of a first-seen subject with an empty string
for every column known so far. -/
def stepInitRecord (ctx : QuadCtx) (st : ExtState) : ExtState :=
  if recsHas st.records ctx.sid then st
  else { st with records := st.records ++ [(ctx.sid, dictOfColumns st.columns)] }

/-- Datatype-column step: when the short predicate is in the datatype
map, ensure the `_datatype` column exists (exact-name check) and set it
to the lingering observed `datatype_name` if one exists, else to the
mapping-declared name. -/
def stepDatatype (dtMap : Record) (ctx : QuadCtx) (st : ExtState) : ExtState :=
  match recLookup dtMap ctx.pshort with
  | some declared =>
    if dtMap ≠ [] then
      let dtcol := ctx.pshort ++ ("_datatype").data
      let cols := if dtcol ∈ st.columns then st.columns else st.columns ++ [dtcol]
      let value := match st.lastDT with | some n => n | none => declared
      { st with columns := cols,
                records := recsUpdate st.records ctx.sid fun r => recSet r dtcol value }
    else st
  | none => st

/-- Insert a plain predicate column with the case-insensitive
membership check of `extract_data` step 7. -/
def insertPlainCol (cols : List Str) (pshort : Str) : List Str :=
  if lowerStr pshort ∈ cols.map lowerStr then cols else cols ++ [pshort]

/-- Language/plain step: a truthy language tag routes the object value
into the `{pshort}_{lang}` column (exact-name existence check; the
`language_columns` dict is never written in the source, so the default
name is always used); otherwise the plain column is ensured
(case-insensitive check) and set. -/
def stepLangOrPlain (ctx : QuadCtx) (lang : Option Str) (st : ExtState) : ExtState :=
  match lang with
  | some l =>
    let colname := ctx.pshort ++ '_' :: l
    let cols := if colname ∈ st.columns then st.columns else st.columns ++ [colname]
    { st with columns := cols,
              records := recsUpdate st.records ctx.sid fun r => recSet r colname ctx.oval }
  | none =>
    { st with columns := insertPlainCol st.columns ctx.pshort,
              records := recsUpdate st.records ctx.sid fun r => recSet r ctx.pshort ctx.oval }

/-- Subject-template step: `records[sid] = populate_template_fields(...)`. -/
def stepPopulate (subjectTemplate : Str) (graph : List Quad) (ctx : QuadCtx)
    (st : ExtState) : ExtState :=
  { st with records :=
      recsUpdate st.records ctx.sid (populate_template_fields subjectTemplate graph ctx.sid) }

/-- Ensure a column per name, appending (exact-name check) in order. -/
def ensureColumns (cols : List Str) (names : List Str) : List Str :=
  names.foldl (fun cols ph => if ph ∈ cols then cols else cols ++ [ph]) cols

/-- One step of `for i, placeholder in enumerate(placeholders)`: assign
the i-th space-separated part to the i-th placeholder column; indices
beyond the part count are skipped. -/
def assignSplitAux (splitValues : List Str) : Nat → List Str → Record → Record
  | _, [], r => r
  | i, ph :: phs, r =>
    assignSplitAux splitValues (i + 1) phs
      (if i < splitValues.length then recSet r ph (splitValues.getD i []) else r)

/-- Assign the i-th space-separated part to the i-th placeholder column;
indices beyond the part count are skipped. -/
def assignSplitValues (placeholders splitValues : List Str) (r : Record) : Record :=
  assignSplitAux splitValues 0 placeholders r

/-- Object-template step: when the predicate has an object template,
split the object value on spaces, ensure a column per placeholder
(exact-name check) and assign the i-th part to the i-th placeholder;
with no template, store the whole object value under the plain column
key again. -/
def stepObjectTemplate (m : Mapping) (q : Quad) (ctx : QuadCtx) (st : ExtState) :
    ExtState :=
  match lookupObjTemplate m q.p with
  | some templateStr =>
    let placeholders := findPlaceholders templateStr
    let splitValues := splitOnChar ' ' ctx.oval
    { st with columns := ensureColumns st.columns placeholders,
              records := recsUpdate st.records ctx.sid
                (assignSplitValues placeholders splitValues) }
  | none =>
    { st with records := recsUpdate st.records ctx.sid fun r => recSet r ctx.pshort ctx.oval }

/-- Process one quad of the graph, in the source's order: compute the
per-quad values, initialize the record, handle the datatype column, the
language/plain column, the subject template, and the object template. -/
def processQuad (m : Mapping) (dtMap : Record) (subjectTemplate : Str)
    (graph : List Quad) (st : ExtState) (q : Quad) : ExtState :=
  let cn := quadCtx st.lastDT q
  stepObjectTemplate m q cn.1
    (stepPopulate subjectTemplate graph cn.1
      (stepLangOrPlain cn.1 (langOf q.o)
        (stepDatatype dtMap cn.1
          (stepInitRecord cn.1 { st with lastDT := cn.2 }))))

/-- Backfill step: fill any column still absent from a record with the
empty string. -/
def backfill (cols : List Str) (r : Record) : Record :=
  cols.foldl (fun r c => if recHas r c then r else r ++ [(c, [])]) r

/-- `extract_data`: build the datatype map, fold the quad stream through
`processQuad`, then backfill every record with every column of the final
column list. -/
def extract_data (m : Mapping) (subjectTemplate : Str) (cols0 : List Str)
    (graph : List Quad) : ExtState :=
  let bd := build_datatype_map m.dtRows
  let st := graph.foldl (processQuad m bd.1 subjectTemplate graph) ⟨cols0, [], bd.2⟩
  { st with records := st.records.map fun kv => (kv.1, backfill st.columns kv.2) }

/-- `extract_columns_from_template`: add each placeholder of the
template, spaces normalised to underscores, unless the (unlowered)
normalised name occurs among the lower-cased existing columns. -/
def extract_columns_from_template (cols : List Str) (template : Str) : List Str :=
  (findPlaceholdersDotall template).foldl
    (fun cols column =>
      let normalized := normSpaces column
      if normalized ∈ cols.map lowerStr then cols else cols ++ [normalized])
    cols

/-- Case-insensitive uniqueness of a column list: no two names differ
only by letter case. -/
def ciUnique (cols : List Str) : Prop := (cols.map lowerStr).Nodup

instance (cols : List Str) : Decidable (ciUnique cols) :=
  inferInstanceAs (Decidable ((cols.map lowerStr).Nodup))

/-- The fatal error conditions of the pipeline. -/
inductive RunErr where
  | missingFile
  | parseError
  | mappingError
  | literalSubject
deriving DecidableEq, Repr

/-- Resolution of the subject term type, modelling
`str(results[0][1]) if results[0][1] else "DefaultTermType"`. -/
def resolveTermType : Option Str → Str
  | some t => t
  | none => ("DefaultTermType").data

/-- `extract_subject_template`: take the first subject-map query row,
resolve the term type (defaulting when unbound), fail on a blank
template or on a term type containing `Literal`, and extract the
template's columns.  Returns the template, the resolved term type, and
the updated column list. -/
def extract_subject_template (subjectRows : List (Str × Option Str))
    (cols : List Str) : Except RunErr (Str × Str × List Str) :=
  match subjectRows with
  | [] => .error .mappingError
  | (template, termType?) :: _ =>
    let termType := resolveTermType termType?
    if pyStrip template = [] then .error .mappingError
    else if isSubstrOf (("Literal").data) termType then .error .literalSubject
    else .ok (template, termType, extract_columns_from_template cols template)

/-- Observable effects of a run, for ordering guarantees. -/
inductive Effect where
  | parseRdf
  | parseMapping
  | extracted
  | wroteCsv
deriving DecidableEq, Repr

/-- The run environment: file existence of the two input paths, parse
outcomes, and the parsed stores. -/
structure Env where
  rdfExists : Bool
  mappingExists : Bool
  rdfParseOk : Bool
  mappingParseOk : Bool
  mapping : Mapping
  graph : List Quad

/-- `run`: check both files exist, parse both inputs, extract the
subject template, extract the data, and write the CSV.  Returns the
trace of effects together with the outcome (the final column list and
records table on success). -/
def run (env : Env) : List Effect × Except RunErr (List Str × Records) :=
  if !env.rdfExists then ([], .error .missingFile)
  else if !env.mappingExists then ([], .error .missingFile)
  else if !env.rdfParseOk then ([.parseRdf], .error .parseError)
  else if !env.mappingParseOk then ([.parseRdf, .parseMapping], .error .parseError)
  else
    match extract_subject_template env.mapping.subjectRows [] with
    | .error e => ([.parseRdf, .parseMapping], .error e)
    | .ok (template, _, cols) =>
      let st := extract_data env.mapping template cols env.graph
      ([.parseRdf, .parseMapping, .extracted, .wroteCsv], .ok (st.columns, st.records))

/-! General list lemmas used by the verification. -/

theorem isPrefixOf_append_self (l r : Str) : l.isPrefixOf (l ++ r) = true := by
  induction l with
  | nil => simp [List.isPrefixOf]
  | cons c cs ih => simp [List.isPrefixOf, ih]

theorem isPrefixOf_self (l : Str) : l.isPrefixOf l = true := by
  have h := isPrefixOf_append_self l []
  rw [List.append_nil] at h
  exact h

theorem isPrefixOf_iff_exists {l s : Str} : l.isPrefixOf s = true ↔ ∃ t, s = l ++ t := by
  induction l generalizing s with
  | nil => simp [List.isPrefixOf]
  | cons c cs ih =>
    cases s with
    | nil => simp [List.isPrefixOf]
    | cons d ds =>
      simp only [List.isPrefixOf, Bool.and_eq_true, beq_iff_eq, ih, List.cons_append,
        List.cons.injEq]
      constructor
      · rintro ⟨rfl, t, rfl⟩; exact ⟨t, rfl, rfl⟩
      · rintro ⟨t, rfl, rfl⟩; exact ⟨rfl, t, rfl⟩

theorem takeWhile_all {p : Char → Bool} {v : Str} (h : v.all p = true) :
    v.takeWhile p = v := by
  induction v with
  | nil => rfl
  | cons c cs ih =>
    simp only [List.all_cons, Bool.and_eq_true] at h
    simp [List.takeWhile_cons, h.1, ih h.2]

theorem takeWhile_append_of_all {p : Char → Bool} {v : Str} (h : v.all p = true) (r : Str) :
    (v ++ r).takeWhile p = v ++ r.takeWhile p := by
  induction v with
  | nil => simp
  | cons c cs ih =>
    simp only [List.all_cons, Bool.and_eq_true] at h
    simp [List.takeWhile_cons, h.1, ih h.2]

theorem take_append_self (v r : Str) : (v ++ r).take v.length = v := by
  induction v with
  | nil => simp
  | cons c cs ih => simp [ih]

theorem drop_append_self (v r : Str) : (v ++ r).drop v.length = r := by
  induction v with
  | nil => simp
  | cons c cs ih => simp [ih]

theorem drop_append_plus (v r : Str) (j : Nat) :
    (v ++ r).drop (v.length + j) = r.drop j := by
  induction v with
  | nil => simp
  | cons c cs ih => simp [Nat.succ_add, ih]

theorem length_takeWhile_le (p : Char → Bool) (s : Str) :
    (s.takeWhile p).length ≤ s.length := by
  induction s with
  | nil => simp
  | cons c cs ih =>
    by_cases h : p c = true
    · simpa [List.takeWhile_cons, h] using Nat.succ_le_succ ih
    · simp [List.takeWhile_cons, h]

/-! Lemmas about the greedy matcher, leading to the template round-trip. -/

theorem findSome_eq_of_all_none {α β : Type} (f : α → Option β) {l1 : List α}
    (l2 : List α) (h : ∀ x ∈ l1, f x = none) :
    (l1 ++ l2).findSome? f = l2.findSome? f := by
  induction l1 with
  | nil => rfl
  | cons a l ih =>
    have ha : f a = none := h a (by simp)
    simp only [List.cons_append, List.findSome?, ha]
    exact ih fun x hx => h x (by simp [hx])

theorem countdown_split {t m : Nat} (h : t ≤ m) :
    ∃ pre, countdown m = pre ++ countdown t ∧ ∀ j ∈ pre, t < j ∧ j ≤ m := by
  induction m with
  | zero =>
    have : t = 0 := Nat.le_zero.mp h
    exact ⟨[], by simp [this]⟩
  | succ m ih =>
    rcases Nat.eq_or_lt_of_le h with heq | hlt
    · exact ⟨[], by simp [heq]⟩
    · obtain ⟨pre, hpre, hmem⟩ := ih (Nat.lt_succ_iff.mp hlt)
      refine ⟨(m + 1) :: pre, by simp [countdown, hpre], ?_⟩
      intro j hj
      rcases List.mem_cons.mp hj with rfl | hj
      · exact ⟨Nat.lt_succ_iff.mp hlt |>.trans_lt (Nat.lt_succ_self m), Nat.le_refl _⟩
      · exact ⟨(hmem j hj).1, Nat.le_succ_of_le (hmem j hj).2⟩

theorem greedyPick_exact (f : Str → Option (List Str)) (cs : Str) {t maxLen : Nat}
    (vs : List Str) (ht : 1 ≤ t) (hmax : t ≤ maxLen)
    (hfail : ∀ j, t < j → j ≤ maxLen → f (cs.drop j) = none)
    (hsucc : f (cs.drop t) = some vs) :
    greedyPick f cs maxLen = some (cs.take t :: vs) := by
  unfold greedyPick
  obtain ⟨pre, hpre, hmem⟩ := countdown_split hmax
  rw [hpre, findSome_eq_of_all_none]
  · obtain ⟨t', rfl⟩ : ∃ t', t = t' + 1 := ⟨t - 1, by omega⟩
    simp [countdown, List.findSome?, hsucc]
  · intro j hj
    rcases hmem j hj with ⟨h1, h2⟩
    simp [hfail j h1 h2]

theorem matchSegs_render (segs : List Seg) (vs : List Str)
    (hg : goodSegs segs = true) (hn : numHoles segs = vs.length)
    (hv : ∀ v ∈ vs, goodVal v = true) :
    matchSegs segs (renderSegs segs vs) = some vs := by
  induction segs generalizing vs with
  | nil =>
    have hvs : vs = [] := by
      cases vs with
      | nil => rfl
      | cons v vs => simp [numHoles] at hn
    subst hvs
    simp [matchSegs, renderSegs]
  | cons head tail ih =>
    cases head with
    | lit l =>
      have hg' : goodSegs tail = true := by simpa [goodSegs] using hg
      have hn' : numHoles tail = vs.length := by simpa [numHoles] using hn
      simp only [renderSegs, matchSegs, isPrefixOf_append_self, if_pos, drop_append_self]
      exact ih vs hg' hn' hv
    | hole =>
      cases vs with
      | nil => simp [numHoles] at hn
      | cons v vs' =>
        have hval : (!v.isEmpty && v.all okChar) = true := hv v (by simp)
        have hvok : v.all okChar = true := by
          simp only [Bool.and_eq_true] at hval
          exact hval.2
        have hvlen : 1 ≤ v.length := by
          cases v with
          | nil => simp at hval
          | cons _ _ => simp
        cases tail with
        | nil =>
          have hvs' : vs' = [] := by
            cases vs' with
            | nil => rfl
            | cons _ _ => simp [numHoles] at hn
          subst hvs'
          simp only [renderSegs, List.append_nil, matchSegs]
          rw [takeWhile_all hvok]
          have h := greedyPick_exact (matchSegs []) v ([] : List Str) hvlen
            (Nat.le_refl _)
            (fun j h1 h2 => absurd (Nat.lt_of_lt_of_le h1 h2) (Nat.lt_irrefl _))
            (by simp [matchSegs])
          rw [List.take_length] at h
          exact h
        | cons a rest' =>
          cases a with
          | hole => simp [goodSegs] at hg
          | lit l =>
            have hn' : numHoles rest' = vs'.length := by
              simp [numHoles] at hn; omega
            have hv' : ∀ w ∈ vs', goodVal w = true := fun w hw => hv w (by simp [hw])
            cases rest' with
            | nil =>
              -- the final hole, followed only by a trailing literal
              have hvs' : vs' = [] := by
                cases vs' with
                | nil => rfl
                | cons _ _ => simp [numHoles] at hn'
              subst hvs'
              simp only [renderSegs, List.append_nil, matchSegs]
              have hmax : v.length ≤ ((v ++ l).takeWhile okChar).length := by
                rw [takeWhile_append_of_all hvok]
                simp
              have hsucc : matchSegs [Seg.lit l] ((v ++ l).drop v.length) = some [] := by
                rw [drop_append_self]
                simp [matchSegs, isPrefixOf_self]
              have hfail : ∀ j, v.length < j → j ≤ ((v ++ l).takeWhile okChar).length →
                  matchSegs [Seg.lit l] ((v ++ l).drop j) = none := by
                intro j h1 h2
                obtain ⟨j', rfl⟩ : ∃ j', j = v.length + j' := ⟨j - v.length, by omega⟩
                have hj1 : 1 ≤ j' := by omega
                have hjle : j' ≤ l.length := by
                  have h3 : ((v ++ l).takeWhile okChar).length
                      = v.length + (l.takeWhile okChar).length := by
                    rw [takeWhile_append_of_all hvok]; simp
                  have h4 := length_takeWhile_le okChar l
                  omega
                have hl1 : 1 ≤ l.length := by omega
                rw [drop_append_plus]
                simp only [matchSegs]
                rw [if_neg]
                intro hpre
                obtain ⟨u, hu⟩ := isPrefixOf_iff_exists.mp hpre
                have hlen := congrArg List.length hu
                simp [List.length_drop] at hlen
                omega
              have h := greedyPick_exact (matchSegs [Seg.lit l]) (v ++ l)
                ([] : List Str) hvlen hmax hfail hsucc
              rw [take_append_self] at h
              exact h
            | cons r0 rest'' =>
              have hga : startsSep l = true ∧ goodSegs (Seg.lit l :: r0 :: rest'') = true := by
                have hgb : goodSegs (Seg.hole :: Seg.lit l :: r0 :: rest'') = true := hg
                simpa [goodSegs, Bool.and_eq_true] using hgb
              obtain ⟨c, l2, rfl⟩ : ∃ c l2, l = c :: l2 := by
                cases l with
                | nil => simp [startsSep] at hga
                | cons c l2 => exact ⟨c, l2, rfl⟩
              have hcok : okChar c = false := by
                have hsp := hga.1
                simp only [startsSep, Bool.or_eq_true, decide_eq_true_eq] at hsp
                rcases hsp with rfl | rfl <;> simp [okChar]
              have hmatch : matchSegs (Seg.lit (c :: l2) :: r0 :: rest'')
                  (c :: (l2 ++ renderSegs (r0 :: rest'') vs')) = some vs' := by
                have h := ih vs' hga.2 (by simpa [numHoles] using hn') hv'
                simpa [renderSegs] using h
              simp only [renderSegs, matchSegs, List.cons_append, List.append_assoc]
              have hTW : ((v ++ c :: (l2 ++ renderSegs (r0 :: rest'') vs')).takeWhile
                  okChar).length = v.length := by
                rw [takeWhile_append_of_all hvok]
                simp [List.takeWhile_cons, hcok]
              rw [hTW]
              have hsucc : matchSegs (Seg.lit (c :: l2) :: r0 :: rest'')
                  ((v ++ c :: (l2 ++ renderSegs (r0 :: rest'') vs')).drop v.length)
                  = some vs' := by
                rw [drop_append_self]
                exact hmatch
              have h := greedyPick_exact (matchSegs (Seg.lit (c :: l2) :: r0 :: rest''))
                (v ++ c :: (l2 ++ renderSegs (r0 :: rest'') vs')) vs'
                hvlen (Nat.le_refl _)
                (fun j h1 h2 => absurd (Nat.lt_of_lt_of_le h1 h2) (Nat.lt_irrefl _))
                hsucc
              rw [take_append_self] at h
              exact h

/-! Lemmas about the dict model. -/

theorem recLookup_recSet_self (r : Record) (k v : Str) :
    recLookup (recSet r k v) k = some v := by
  induction r with
  | nil => simp [recSet, recLookup]
  | cons kv r ih =>
    by_cases h : kv.1 = k
    · simp [recSet, h, recLookup]
    · simp [recSet, h, recLookup, ih]

theorem recLookup_recSet_ne (r : Record) {k k' : Str} (v : Str) (h : k' ≠ k) :
    recLookup (recSet r k v) k' = recLookup r k' := by
  induction r with
  | nil => simp [recSet, recLookup, Ne.symm h]
  | cons kv r ih =>
    by_cases hk : kv.1 = k
    · have hk' : kv.1 ≠ k' := by rw [hk]; exact Ne.symm h
      simp [recSet, hk, recLookup, Ne.symm h, hk']
    · simp only [recSet, if_neg hk, recLookup]
      by_cases hk2 : kv.1 = k'
      · simp [hk2]
      · simp [hk2, ih]

theorem recHas_eq_isSome (r : Record) (k : Str) :
    recHas r k = (recLookup r k).isSome := by
  induction r with
  | nil => simp [recHas, recLookup]
  | cons kv r ih =>
    by_cases h : kv.1 = k
    · simp [recHas, recLookup, h]
    · simp [recHas, recLookup, h, ih]

theorem recHas_append (r r2 : Record) (k : Str) :
    recHas (r ++ r2) k = (recHas r k || recHas r2 k) := by
  induction r with
  | nil => simp [recHas]
  | cons kv r ih => simp [recHas, ih, Bool.or_assoc]

theorem recsLookup_recsUpdate_self (rs : Records) (sid : Str) (f : Record → Record) :
    recsLookup (recsUpdate rs sid f) sid = (recsLookup rs sid).map f := by
  induction rs with
  | nil => simp [recsUpdate, recsLookup]
  | cons kv rs ih =>
    by_cases h : kv.1 = sid
    · simp [recsUpdate, h, recsLookup]
    · simp [recsUpdate, h, recsLookup, ih]

theorem recsLookup_recsUpdate_ne (rs : Records) {sid sid' : Str} (f : Record → Record)
    (h : sid' ≠ sid) :
    recsLookup (recsUpdate rs sid f) sid' = recsLookup rs sid' := by
  induction rs with
  | nil => simp [recsUpdate, recsLookup]
  | cons kv rs ih =>
    by_cases hk : kv.1 = sid
    · have hk' : kv.1 ≠ sid' := by rw [hk]; exact Ne.symm h
      simp [recsUpdate, hk, recsLookup, Ne.symm h, hk']
    · simp only [recsUpdate, if_neg hk, recsLookup]
      by_cases hk2 : kv.1 = sid'
      · simp [hk2]
      · simp [hk2, ih]

theorem recsHas_eq_isSome (rs : Records) (sid : Str) :
    recsHas rs sid = (recsLookup rs sid).isSome := by
  induction rs with
  | nil => simp [recsHas, recsLookup]
  | cons kv rs ih =>
    by_cases h : kv.1 = sid
    · simp [recsHas, recsLookup, h]
    · simp [recsHas, recsLookup, h, ih]

theorem recsLookup_append_singleton (rs : Records) (sid : Str) (x : Record)
    (h : recsHas rs sid = false) :
    recsLookup (rs ++ [(sid, x)]) sid = some x := by
  induction rs with
  | nil => simp [recsLookup]
  | cons kv rs ih =>
    simp only [recsHas, Bool.or_eq_false_iff] at h
    have h1 : kv.1 ≠ sid := by
      intro he
      simp [he] at h
    simp [recsLookup, h1, ih h.2]

/-! Lemmas about the extraction steps. -/

theorem stepInitRecord_columns (ctx : QuadCtx) (st : ExtState) :
    (stepInitRecord ctx st).columns = st.columns := by
  unfold stepInitRecord
  by_cases h : recsHas st.records ctx.sid <;> simp [h]

theorem recsLookup_stepInitRecord (ctx : QuadCtx) (st : ExtState) :
    recsLookup (stepInitRecord ctx st).records ctx.sid
      = some ((recsLookup st.records ctx.sid).getD (dictOfColumns st.columns)) := by
  unfold stepInitRecord
  by_cases h : recsHas st.records ctx.sid
  · rw [recsHas_eq_isSome] at h
    obtain ⟨r, hr⟩ := Option.isSome_iff_exists.mp h
    simp [recsHas_eq_isSome, h, hr]
  · have h2 : recsHas st.records ctx.sid = false := by
      cases hb : recsHas st.records ctx.sid
      · rfl
      · exact absurd hb h
    have h3 : recsLookup st.records ctx.sid = none := by
      rw [recsHas_eq_isSome] at h2
      cases ho : recsLookup st.records ctx.sid
      · rfl
      · rw [ho] at h2
        simp at h2
    simp only [if_neg h]
    rw [recsLookup_append_singleton st.records ctx.sid _ h2, h3]
    rfl

/-! Lemmas for claim C1: the backfill pass completes every record. -/

theorem recHas_backfill_mono (cols : List Str) (r : Record) (k : Str)
    (h : recHas r k = true) : recHas (backfill cols r) k = true := by
  induction cols generalizing r with
  | nil => exact h
  | cons c cs ih =>
    show recHas (backfill cs (if recHas r c then r else r ++ [(c, [])])) k = true
    by_cases hc : recHas r c
    · simp only [if_pos hc]
      exact ih r h
    · simp only [if_neg hc]
      exact ih _ (by simp [recHas_append, h])

theorem recHas_backfill (cols : List Str) (r : Record) (k : Str) (h : k ∈ cols) :
    recHas (backfill cols r) k = true := by
  induction cols generalizing r with
  | nil => cases h
  | cons c cs ih =>
    show recHas (backfill cs (if recHas r c then r else r ++ [(c, [])])) k = true
    rcases List.mem_cons.mp h with rfl | hmem
    · by_cases hc : recHas r k
      · simp only [if_pos hc]
        exact recHas_backfill_mono cs r k hc
      · simp only [if_neg hc]
        exact recHas_backfill_mono cs _ k (by simp [recHas_append, recHas])
    · by_cases hc : recHas r c
      · simp only [if_pos hc]
        exact ih r hmem
      · simp only [if_neg hc]
        exact ih _ hmem

/-! Claim C1: every record is complete after extraction. -/

/-- C1.  After `extract_data` completes, every record in the resulting
data mapping has a value (possibly the empty string) for every column in
the final column list: the closing backfill pass inserts an empty string
for every column still absent, so no record handed to the table
assembler is missing a key. -/
theorem C1_records_complete (m : Mapping) (tmpl : Str) (cols0 : List Str)
    (graph : List Quad) (pr : Str × Record)
    (hpr : pr ∈ (extract_data m tmpl cols0 graph).records)
    (c : Str) (hc : c ∈ (extract_data m tmpl cols0 graph).columns) :
    recHas pr.2 c = true := by
  unfold extract_data at hpr hc
  obtain ⟨kv, _, rfl⟩ := List.mem_map.mp hpr
  exact recHas_backfill _ _ _ hc

/-- Witness for C1: the record extracted for subject
`http://ex.com/person/42` contains the key `name` of the final column
list. -/
theorem C1_records_complete_witness :
    recHas [((("id").data), (("42").data)), ((("name").data), (("Alice").data))]
      (("name").data) = true :=
  C1_records_complete ⟨[], [], []⟩ (("http://ex.com/person/\x7bid\x7d").data)
    [("id").data]
    [⟨RdfSubj.uri (("http://ex.com/person/42").data), ("http://ex.com/name").data,
      RdfObj.lit (("Alice").data) none none⟩]
    ((("http://ex.com/person/42").data),
      [((("id").data), (("42").data)), ((("name").data), (("Alice").data))])
    (by decide) (("name").data) (by decide)

/-! Claim C2: the template round-trip. -/

/-- C2 (amended).  Template round-trip: for a backslash-free template
whose compiled pattern satisfies the separation condition `goodSegs`
(every placeholder is immediately followed by a literal part starting
with `/` or `;`, or is the final placeholder followed at most by a
trailing literal), binding a URI generated by substituting non-empty,
`/;\x7b\x7d`-free values into the template recovers exactly those values
modulo percent-decoding, one decoded value per placeholder in template
order.  The original claim, without the separation condition, fails for
adjacent placeholders (see the counterexample). -/
theorem C2_template_roundtrip (T : Str) (V : List Str)
    (_hbs : '\\' ∉ T)
    (hg : goodSegs (bindPattern T) = true)
    (hn : numHoles (bindPattern T) = V.length)
    (hv : ∀ v ∈ V, v ≠ [] ∧ '/' ∉ v ∧ ';' ∉ v ∧ lbrace ∉ v ∧ rbrace ∉ v) :
    bindTemplate T (generateFromTemplate T V) = some (V.map pyUnquote) := by
  have hv' : ∀ v ∈ V, goodVal v = true := by
    intro v hvm
    obtain ⟨h1, h2, h3, _, _⟩ := hv v hvm
    have hall : v.all okChar = true := by
      rw [List.all_eq_true]
      intro c hc
      have hc1 : c ≠ '/' := fun h => h2 (h ▸ hc)
      have hc2 : c ≠ ';' := fun h => h3 (h ▸ hc)
      simp [okChar, hc1, hc2]
    have hne : v.isEmpty = false := by
      cases v with
      | nil => exact absurd rfl h1
      | cons _ _ => rfl
    simp [goodVal, hne, hall]
  unfold bindTemplate generateFromTemplate
  rw [matchSegs_render (bindPattern T) V hg hn hv']
  rfl

/-- Witness for C2: the round-trip at the template
`http://ex.com/person/(id)/(name)` with values `42` and `Ann`. -/
theorem C2_template_roundtrip_witness :
    bindTemplate (("http://ex.com/person/\x7bid\x7d/\x7bname\x7d").data)
      (generateFromTemplate (("http://ex.com/person/\x7bid\x7d/\x7bname\x7d").data)
        [("42").data, ("Ann").data])
      = some [("42").data, ("Ann").data] := by
  have h := C2_template_roundtrip (("http://ex.com/person/\x7bid\x7d/\x7bname\x7d").data)
    [("42").data, ("Ann").data] (by decide) (by decide) (by decide) (by decide)
  exact h.trans (by decide)

/-- Counterexample to C2 as stated: the values `x` and `yz` are
non-empty and free of `/`, `;` and braces, but binding the URI `xyz`
generated from the adjacent-placeholder template recovers `xy` and `z`
instead, because the first greedy capture group takes every character it
can. -/
theorem C2_counterexample :
    (∀ v ∈ [("x").data, ("yz").data],
        v ≠ [] ∧ '/' ∉ v ∧ ';' ∉ v ∧ lbrace ∉ v ∧ rbrace ∉ v)
    ∧ bindTemplate (("\x7ba\x7d\x7bb\x7d").data)
        (generateFromTemplate (("\x7ba\x7d\x7bb\x7d").data) [("x").data, ("yz").data])
        = some [("xy").data, ("z").data]
    ∧ some [("xy").data, ("z").data]
        ≠ some (List.map pyUnquote [("x").data, ("yz").data]) :=
  ⟨by decide, by decide, by decide⟩

/-! Lemmas about `populate_template_fields`. -/

theorem foldl_preserves_recLookup {α : Type} (g : Record → α → Record) (l : List α)
    (k : Str) (hg : ∀ r a, a ∈ l → recLookup (g r a) k = recLookup r k) (r : Record) :
    recLookup (l.foldl g r) k = recLookup r k := by
  induction l generalizing r with
  | nil => rfl
  | cons a l ih =>
    rw [List.foldl_cons, ih (fun r' a' ha' => hg r' a' (by simp [ha'])) (g r a),
      hg r a (by simp)]

theorem populate_preserves_key (tmpl : Str) (graph : List Quad) (sid : Str)
    (r : Record) (k : Str)
    (h : ∀ ph ∈ findPlaceholders tmpl, k ≠ normSpaces ph ∧ k ≠ ph) :
    recLookup (populate_template_fields tmpl graph sid r) k = recLookup r k := by
  unfold populate_template_fields
  by_cases h0 : tmpl = []
  · simp [h0]
  simp only [if_neg h0]
  by_cases h1 : findPlaceholders tmpl = []
  · simp [h1]
  simp only [if_neg h1]
  by_cases h2 : (("_:blank_").data).isPrefixOf sid = true
  · simp only [h2, if_true]
    refine foldl_preserves_recLookup _ _ _ ?_ r
    intro r' q hq
    refine foldl_preserves_recLookup _ _ _ ?_ r'
    intro r'' ph hph
    by_cases hm : lowerStr ph = lowerStr ((splitOnChar '/' q.p).getLastD [])
    · rw [if_pos hm]
      exact recLookup_recSet_ne r'' _ (h ph hph).2
    · rw [if_neg hm]
  · simp only [h2, if_false, Bool.false_eq_true]
    cases hms : matchSegs (bindPattern tmpl) sid with
    | none => rfl
    | some vals =>
      refine foldl_preserves_recLookup _ _ _ ?_ r
      intro r' pv hpv
      have hmem : pv.1 ∈ findPlaceholders tmpl := (List.of_mem_zip hpv).1
      exact recLookup_recSet_ne r' _ (h pv.1 hmem).1

/-- The record function of `stepDatatype` exists and touches only the
`_datatype` column of the quad's predicate. -/
theorem stepDatatype_lookup (dtMap : Record) (ctx : QuadCtx) (st : ExtState) :
    ∃ g, recsLookup (stepDatatype dtMap ctx st).records ctx.sid
        = (recsLookup st.records ctx.sid).map g
      ∧ ∀ r k, k ≠ ctx.pshort ++ ("_datatype").data → recLookup (g r) k = recLookup r k := by
  unfold stepDatatype
  cases hdt : recLookup dtMap ctx.pshort with
  | none =>
    refine ⟨id, ?_, ?_⟩
    · simp
    · intro r k _
      rfl
  | some declared =>
    have hne : dtMap ≠ [] := by
      intro h
      rw [h] at hdt
      simp [recLookup] at hdt
    simp only [if_pos hne]
    refine ⟨_, recsLookup_recsUpdate_self st.records ctx.sid _, ?_⟩
    intro r k hk
    exact recLookup_recSet_ne r _ hk

/-! Claim C3: language-tagged literals. -/

/-- C3 (amended).  For a quad whose object is a literal with a truthy
language tag and whose predicate has no object template, `extract_data`
(via `processQuad`) sets the synthetic `(pshort)_(lang)` column to the
object's lexical value, but — contrary to the original claim — the
store-as-usual fallback of the object-template step then also assigns
the same value to the plain `(pshort)` record key for that quad.
(The hypothesis on the subject-template placeholders keeps
`populate_template_fields` from overwriting the language column.) -/
theorem C3_language_column (m : Mapping) (dtMap : Record) (tmpl : Str)
    (graph : List Quad) (st : ExtState) (q : Quad) (v l : Str) (dt : Option Str)
    (ho : q.o = RdfObj.lit v dt (some l)) (hl : l ≠ [])
    (hot : lookupObjTemplate m q.p = none)
    (hph : ∀ ph ∈ findPlaceholders tmpl,
        predShort q.p ++ '_' :: l ≠ normSpaces ph ∧ predShort q.p ++ '_' :: l ≠ ph) :
    ((recsLookup (processQuad m dtMap tmpl graph st q).records (subjectIdOf q.s)).map
        (fun r => recLookup r (predShort q.p ++ '_' :: l))
      = some (some v))
    ∧ ((recsLookup (processQuad m dtMap tmpl graph st q).records (subjectIdOf q.s)).map
        (fun r => recLookup r (predShort q.p))
      = some (some v)) := by
  obtain ⟨qs, qp, qo⟩ := q
  dsimp only at ho hot hph ⊢
  subst ho
  have hlang : langOf (RdfObj.lit v dt (some l)) = some l := by
    simp [langOf, hl]
  unfold processQuad
  simp only [quadCtx, hlang, objectValueOf]
  set ctx : QuadCtx := ⟨subjectIdOf qs, predShort qp, v⟩ with hctx
  set st1 : ExtState := { st with lastDT := some (literalDatatypeName dt) } with hst1
  obtain ⟨g, hg, _⟩ := stepDatatype_lookup dtMap ctx (stepInitRecord ctx st1)
  obtain ⟨r0, hr0⟩ : ∃ r0, recsLookup (stepInitRecord ctx st1).records ctx.sid = some r0 :=
    ⟨_, recsLookup_stepInitRecord ctx st1⟩
  have hlook :
      recsLookup (stepObjectTemplate m ⟨qs, qp, RdfObj.lit v dt (some l)⟩ ctx
        (stepPopulate tmpl graph ctx
          (stepLangOrPlain ctx (some l) (stepDatatype dtMap ctx
            (stepInitRecord ctx st1))))).records ctx.sid
      = some (recSet
          (populate_template_fields tmpl graph ctx.sid
            (recSet (g r0) (ctx.pshort ++ '_' :: l) ctx.oval))
          ctx.pshort ctx.oval) := by
    unfold stepObjectTemplate
    simp only [hot]
    rw [recsLookup_recsUpdate_self]
    unfold stepPopulate
    rw [recsLookup_recsUpdate_self]
    unfold stepLangOrPlain
    simp only []
    rw [recsLookup_recsUpdate_self, hg, hr0]
    rfl
  rw [hlook]
  have hne1 : ctx.pshort ++ '_' :: l ≠ ctx.pshort := by
    intro h
    have hlen := congrArg List.length h
    simp [List.length_append] at hlen
  constructor
  · rw [Option.map_some']
    rw [recLookup_recSet_ne _ _ hne1,
      populate_preserves_key tmpl graph ctx.sid _ _ hph,
      recLookup_recSet_self]
  · rw [Option.map_some']
    rw [recLookup_recSet_self]

/-- Counterexample to C3 as stated: for the single quad whose literal
`Alice` carries language tag `en` (and whose predicate has no object
template), `extract_data` sets the synthetic column `name_en` to
`Alice` — but the record's plain `name` key also receives the same
object value, contradicting "does not also assign that object value to
the plain column for that quad". -/
theorem C3_counterexample :
    ((recsLookup (extract_data ⟨[], [], []⟩ (("T").data) []
        [⟨RdfSubj.uri (("http://ex.com/p1").data), ("http://ex.com/name").data,
          RdfObj.lit (("Alice").data) none (some (("en").data))⟩]).records
        (("http://ex.com/p1").data)).map
        (fun r => recLookup r (("name_en").data))
      = some (some (("Alice").data)))
    ∧ ((recsLookup (extract_data ⟨[], [], []⟩ (("T").data) []
        [⟨RdfSubj.uri (("http://ex.com/p1").data), ("http://ex.com/name").data,
          RdfObj.lit (("Alice").data) none (some (("en").data))⟩]).records
        (("http://ex.com/p1").data)).map
        (fun r => recLookup r (("name").data))
      = some (some (("Alice").data)))
    ∧ (("Alice").data) ≠ ([] : Str) :=
  ⟨by decide, by decide, by decide⟩

/-- Witness for C3 (amended) at a concrete quad. -/
theorem C3_language_column_witness :
    ((recsLookup (processQuad ⟨[], [], []⟩ [] (("T").data) [] ⟨[], [], none⟩
        ⟨RdfSubj.uri (("http://ex.com/p1").data), ("http://ex.com/name").data,
         RdfObj.lit (("Alice").data) none (some (("en").data))⟩).records
        (subjectIdOf (RdfSubj.uri (("http://ex.com/p1").data)))).map
        (fun r => recLookup r
          (predShort (("http://ex.com/name").data) ++ '_' :: (("en").data)))
      = some (some (("Alice").data)))
    ∧ ((recsLookup (processQuad ⟨[], [], []⟩ [] (("T").data) [] ⟨[], [], none⟩
        ⟨RdfSubj.uri (("http://ex.com/p1").data), ("http://ex.com/name").data,
         RdfObj.lit (("Alice").data) none (some (("en").data))⟩).records
        (subjectIdOf (RdfSubj.uri (("http://ex.com/p1").data)))).map
        (fun r => recLookup r (predShort (("http://ex.com/name").data)))
      = some (some (("Alice").data))) :=
  C3_language_column ⟨[], [], []⟩ [] (("T").data) [] ⟨[], [], none⟩
    ⟨RdfSubj.uri (("http://ex.com/p1").data), ("http://ex.com/name").data,
     RdfObj.lit (("Alice").data) none (some (("en").data))⟩
    (("Alice").data) (("en").data) none rfl (by decide) (by decide) (by decide)

/-! Lemmas about `assignSplitValues`, for claim C4. -/

theorem assignSplitAux_preserves (parts : List Str) (phs : List Str) :
    ∀ (n : Nat) (r : Record) (k : Str), k ∉ phs →
    recLookup (assignSplitAux parts n phs r) k = recLookup r k := by
  induction phs with
  | nil => intro n r k _; rfl
  | cons ph phs' ih =>
    intro n r k hk
    have hk1 : k ≠ ph := fun he => hk (by simp [he])
    have hk2 : k ∉ phs' := fun hm => hk (by simp [hm])
    show recLookup (assignSplitAux parts (n + 1) phs' _) k = _
    rw [ih (n + 1) _ k hk2]
    by_cases hc : n < parts.length
    · rw [if_pos hc]
      exact recLookup_recSet_ne r _ hk1
    · rw [if_neg hc]

theorem assignSplitAux_get (parts : List Str) (phs : List Str) :
    ∀ (n : Nat) (r : Record), phs.Nodup → ∀ (i : Nat) (hi : i < phs.length),
    recLookup (assignSplitAux parts n phs r) (phs.get ⟨i, hi⟩)
      = if n + i < parts.length then some (parts.getD (n + i) [])
        else recLookup r (phs.get ⟨i, hi⟩) := by
  induction phs with
  | nil => intro n r _ i hi; exact absurd hi (Nat.not_lt_zero i)
  | cons ph phs' ih =>
    intro n r hnd i hi
    have hnd' := List.nodup_cons.mp hnd
    cases i with
    | zero =>
      show recLookup (assignSplitAux parts n (ph :: phs') r) ph
        = if n + 0 < parts.length then some (parts.getD (n + 0) []) else recLookup r ph
      rw [Nat.add_zero]
      show recLookup (assignSplitAux parts (n + 1) phs' _) ph = _
      rw [assignSplitAux_preserves parts phs' (n + 1) _ ph hnd'.1]
      by_cases hc : n < parts.length
      · rw [if_pos hc, if_pos hc, recLookup_recSet_self]
      · rw [if_neg hc, if_neg hc]
    | succ j =>
      have hj : j < phs'.length := by
        simp only [List.length_cons] at hi
        omega
      show recLookup (assignSplitAux parts n (ph :: phs') r) (phs'.get ⟨j, hj⟩)
        = if n + (j + 1) < parts.length then some (parts.getD (n + (j + 1)) [])
          else recLookup r (phs'.get ⟨j, hj⟩)
      show recLookup (assignSplitAux parts (n + 1) phs' _) _ = _
      rw [ih (n + 1) _ hnd'.2 j hj]
      have harith : n + 1 + j = n + (j + 1) := by omega
      rw [harith]
      by_cases hc : n + (j + 1) < parts.length
      · rw [if_pos hc, if_pos hc]
      · rw [if_neg hc, if_neg hc]
        have hne : phs'.get ⟨j, hj⟩ ≠ ph := by
          intro he
          exact hnd'.1 (he ▸ List.get_mem phs' j hj)
        by_cases hlt : n < parts.length
        · rw [if_pos hlt]
          exact recLookup_recSet_ne r _ hne
        · rw [if_neg hlt]

theorem assignSplitValues_preserves (phs parts : List Str) (r : Record) (k : Str)
    (hk : k ∉ phs) :
    recLookup (assignSplitValues phs parts r) k = recLookup r k :=
  assignSplitAux_preserves parts phs 0 r k hk

theorem assignSplitValues_get (phs parts : List Str) (r : Record) (hnd : phs.Nodup)
    (i : Nat) (hi : i < phs.length) :
    recLookup (assignSplitValues phs parts r) (phs.get ⟨i, hi⟩)
      = if i < parts.length then some (parts.getD i [])
        else recLookup r (phs.get ⟨i, hi⟩) := by
  have h := assignSplitAux_get parts phs 0 r hnd i hi
  rw [Nat.zero_add] at h
  exact h

/-! Claim C4: object templates split the value but do not supersede the
plain column. -/

/-- C4 (amended).  For a quad whose predicate has an object template
(and whose literal object carries no language tag), `extract_data` (via
`processQuad`) splits the object value on spaces and assigns the i-th
part to the i-th placeholder column, and placeholder columns beyond the
part count keep their previous value — but, contrary to the original
claim, the split path does not supersede the plain column: the plain
`(pshort)` key, written by step 7 before the split, retains the whole
object value.  (The no-duplicate and disjointness hypotheses keep the
split assignments and `populate_template_fields` from clobbering the
inspected keys.) -/
theorem C4_object_template_split (m : Mapping) (dtMap : Record) (tmpl : Str)
    (graph : List Quad) (st : ExtState) (q : Quad) (tStr v : Str) (dt : Option Str)
    (ho : q.o = RdfObj.lit v dt none)
    (hot : lookupObjTemplate m q.p = some tStr)
    (hnd : (findPlaceholders tStr).Nodup)
    (hnp : predShort q.p ∉ findPlaceholders tStr)
    (hph : ∀ ph ∈ findPlaceholders tmpl,
        predShort q.p ≠ normSpaces ph ∧ predShort q.p ≠ ph) :
    ((recsLookup (processQuad m dtMap tmpl graph st q).records (subjectIdOf q.s)).map
        (fun r => recLookup r (predShort q.p)) = some (some v))
    ∧ (∀ (i : Nat) (hi : i < (findPlaceholders tStr).length),
        i < (splitOnChar ' ' v).length →
        (recsLookup (processQuad m dtMap tmpl graph st q).records (subjectIdOf q.s)).map
          (fun r => recLookup r ((findPlaceholders tStr).get ⟨i, hi⟩))
          = some (some ((splitOnChar ' ' v).getD i [])))
    ∧ (∀ (r : Record) (i : Nat) (hi : i < (findPlaceholders tStr).length),
        (splitOnChar ' ' v).length ≤ i →
        recLookup (assignSplitValues (findPlaceholders tStr) (splitOnChar ' ' v) r)
          ((findPlaceholders tStr).get ⟨i, hi⟩)
          = recLookup r ((findPlaceholders tStr).get ⟨i, hi⟩)) := by
  obtain ⟨qs, qp, qo⟩ := q
  dsimp only at ho hot hnp hph ⊢
  subst ho
  have hlang : langOf (RdfObj.lit v dt none) = none := rfl
  unfold processQuad
  simp only [quadCtx, hlang, objectValueOf]
  set ctx : QuadCtx := ⟨subjectIdOf qs, predShort qp, v⟩ with hctx
  set st1 : ExtState := { st with lastDT := some (literalDatatypeName dt) } with hst1
  obtain ⟨g, hg, _⟩ := stepDatatype_lookup dtMap ctx (stepInitRecord ctx st1)
  obtain ⟨r0, hr0⟩ : ∃ r0, recsLookup (stepInitRecord ctx st1).records ctx.sid = some r0 :=
    ⟨_, recsLookup_stepInitRecord ctx st1⟩
  have hlook :
      recsLookup (stepObjectTemplate m ⟨qs, qp, RdfObj.lit v dt none⟩ ctx
        (stepPopulate tmpl graph ctx
          (stepLangOrPlain ctx none (stepDatatype dtMap ctx
            (stepInitRecord ctx st1))))).records ctx.sid
      = some (assignSplitValues (findPlaceholders tStr) (splitOnChar ' ' ctx.oval)
          (populate_template_fields tmpl graph ctx.sid
            (recSet (g r0) ctx.pshort ctx.oval))) := by
    unfold stepObjectTemplate
    simp only [hot]
    rw [recsLookup_recsUpdate_self]
    unfold stepPopulate
    rw [recsLookup_recsUpdate_self]
    unfold stepLangOrPlain
    simp only []
    rw [recsLookup_recsUpdate_self, hg, hr0]
    rfl
  rw [hlook]
  refine ⟨?_, ?_, ?_⟩
  · rw [Option.map_some']
    rw [assignSplitValues_preserves _ _ _ _ hnp,
      populate_preserves_key tmpl graph ctx.sid _ _ hph,
      recLookup_recSet_self]
  · intro i hi hlt
    rw [Option.map_some']
    rw [assignSplitValues_get _ _ _ hnd i hi, if_pos hlt]
  · intro r i hi hge
    rw [assignSplitValues_get _ _ _ hnd i hi, if_neg (by omega)]

/-- Counterexample to C4 as stated: with the object template
`http://ex.com/addr/(street)_(city)` on predicate `addr` and the
literal `Main Berlin`, the parts are split into `street` and `city`,
yet the plain `addr` column still holds the whole value `Main Berlin` —
the whole-value assignment is not superseded. -/
theorem C4_counterexample :
    ((recsLookup (extract_data
        ⟨[], [], [((("http://ex.com/addr").data),
                   (("http://ex.com/addr/\x7bstreet\x7d_\x7bcity\x7d").data))]⟩
        (("T").data) []
        [⟨RdfSubj.uri (("http://ex.com/p1").data), ("http://ex.com/addr").data,
          RdfObj.lit (("Main Berlin").data) none none⟩]).records
        (("http://ex.com/p1").data)).map
        (fun r => recLookup r (("street").data))
      = some (some (("Main").data)))
    ∧ ((recsLookup (extract_data
        ⟨[], [], [((("http://ex.com/addr").data),
                   (("http://ex.com/addr/\x7bstreet\x7d_\x7bcity\x7d").data))]⟩
        (("T").data) []
        [⟨RdfSubj.uri (("http://ex.com/p1").data), ("http://ex.com/addr").data,
          RdfObj.lit (("Main Berlin").data) none none⟩]).records
        (("http://ex.com/p1").data)).map
        (fun r => recLookup r (("addr").data))
      = some (some (("Main Berlin").data))) :=
  ⟨by decide, by decide⟩

/-- Witness for C4 (amended) at the `street`/`city` scenario. -/
theorem C4_object_template_split_witness :
    ((recsLookup (processQuad
        ⟨[], [], [((("http://ex.com/addr").data),
                   (("http://ex.com/addr/\x7bstreet\x7d_\x7bcity\x7d").data))]⟩
        [] (("T").data) [] ⟨[], [], none⟩
        ⟨RdfSubj.uri (("http://ex.com/p1").data), ("http://ex.com/addr").data,
         RdfObj.lit (("Main Berlin").data) none none⟩).records
        (subjectIdOf (RdfSubj.uri (("http://ex.com/p1").data)))).map
        (fun r => recLookup r (predShort (("http://ex.com/addr").data)))
      = some (some (("Main Berlin").data)))
    ∧ (∀ (i : Nat)
        (hi : i < (findPlaceholders
          (("http://ex.com/addr/\x7bstreet\x7d_\x7bcity\x7d").data)).length),
        i < (splitOnChar ' ' (("Main Berlin").data)).length →
        (recsLookup (processQuad
          ⟨[], [], [((("http://ex.com/addr").data),
                     (("http://ex.com/addr/\x7bstreet\x7d_\x7bcity\x7d").data))]⟩
          [] (("T").data) [] ⟨[], [], none⟩
          ⟨RdfSubj.uri (("http://ex.com/p1").data), ("http://ex.com/addr").data,
           RdfObj.lit (("Main Berlin").data) none none⟩).records
          (subjectIdOf (RdfSubj.uri (("http://ex.com/p1").data)))).map
          (fun r => recLookup r
            ((findPlaceholders
              (("http://ex.com/addr/\x7bstreet\x7d_\x7bcity\x7d").data)).get ⟨i, hi⟩))
          = some (some ((splitOnChar ' ' (("Main Berlin").data)).getD i [])))
    ∧ (∀ (r : Record) (i : Nat)
        (hi : i < (findPlaceholders
          (("http://ex.com/addr/\x7bstreet\x7d_\x7bcity\x7d").data)).length),
        (splitOnChar ' ' (("Main Berlin").data)).length ≤ i →
        recLookup (assignSplitValues
          (findPlaceholders (("http://ex.com/addr/\x7bstreet\x7d_\x7bcity\x7d").data))
          (splitOnChar ' ' (("Main Berlin").data)) r)
          ((findPlaceholders
            (("http://ex.com/addr/\x7bstreet\x7d_\x7bcity\x7d").data)).get ⟨i, hi⟩)
          = recLookup r
            ((findPlaceholders
              (("http://ex.com/addr/\x7bstreet\x7d_\x7bcity\x7d").data)).get ⟨i, hi⟩)) :=
  C4_object_template_split
    ⟨[], [], [((("http://ex.com/addr").data),
               (("http://ex.com/addr/\x7bstreet\x7d_\x7bcity\x7d").data))]⟩
    [] (("T").data) [] ⟨[], [], none⟩
    ⟨RdfSubj.uri (("http://ex.com/p1").data), ("http://ex.com/addr").data,
     RdfObj.lit (("Main Berlin").data) none none⟩
    (("http://ex.com/addr/\x7bstreet\x7d_\x7bcity\x7d").data)
    (("Main Berlin").data) none rfl (by decide) (by decide) (by decide) (by decide)

/-! Claim C5: the `_datatype` column. -/

theorem stepInitRecord_lastDT (ctx : QuadCtx) (st : ExtState) :
    (stepInitRecord ctx st).lastDT = st.lastDT := by
  unfold stepInitRecord
  by_cases h : recsHas st.records ctx.sid
  · rw [if_pos h]
  · rw [if_neg h]

/-- The record function of `stepDatatype` when the predicate is in the
datatype map: the `_datatype` column receives the lingering observed
datatype name when one exists, else the mapping-declared name. -/
theorem stepDatatype_lookup_eq (dtMap : Record) (ctx : QuadCtx) (st : ExtState)
    (declared : Str) (hdt : recLookup dtMap ctx.pshort = some declared) :
    recsLookup (stepDatatype dtMap ctx st).records ctx.sid
      = (recsLookup st.records ctx.sid).map
          (fun r => recSet r (ctx.pshort ++ ("_datatype").data)
            (match st.lastDT with | some n => n | none => declared)) := by
  unfold stepDatatype
  rw [hdt]
  have hne : dtMap ≠ [] := by
    intro h
    rw [h] at hdt
    simp [recLookup] at hdt
  dsimp only
  rw [if_pos hne]
  exact recsLookup_recsUpdate_self st.records ctx.sid _

/-- The record function of `stepLangOrPlain`: one `recSet` of the
object value, at the language column or at the plain column. -/
theorem stepLangOrPlain_lookup (ctx : QuadCtx) (lang : Option Str) (st : ExtState) :
    ∃ kx, (kx = ctx.pshort ∨ ∃ l, lang = some l ∧ kx = ctx.pshort ++ '_' :: l)
      ∧ recsLookup (stepLangOrPlain ctx lang st).records ctx.sid
        = (recsLookup st.records ctx.sid).map (fun r => recSet r kx ctx.oval) := by
  cases lang with
  | none =>
    exact ⟨ctx.pshort, Or.inl rfl, recsLookup_recsUpdate_self st.records ctx.sid _⟩
  | some l =>
    exact ⟨ctx.pshort ++ '_' :: l, Or.inr ⟨l, rfl, rfl⟩,
      recsLookup_recsUpdate_self st.records ctx.sid _⟩

/-- C5 (amended).  For a quad whose object is a literal and whose short
predicate is in the datatype map, `extract_data` (via `processQuad`)
sets the `(pshort)_datatype` column to the datatype local name observed
on the literal when it carries one, and to the fixed name `string` when
it carries none — contrary to the original claim, the mapping-declared
datatype name is not used for literals without a datatype, because the
source computes `datatype = str(o.datatype) if o.datatype else "string"`
and the `'datatype_name' in locals()` test then always succeeds. -/
theorem C5_datatype_column (m : Mapping) (dtMap : Record) (tmpl : Str)
    (graph : List Quad) (st : ExtState) (q : Quad) (v : Str) (dt : Option Str)
    (lang? : Option Str) (declared : Str)
    (ho : q.o = RdfObj.lit v dt lang?)
    (hdt : recLookup dtMap (predShort q.p) = some declared)
    (hot : lookupObjTemplate m q.p = none)
    (hlnd : ∀ l, langOf q.o = some l → l ≠ ("datatype").data)
    (hph : ∀ ph ∈ findPlaceholders tmpl,
        predShort q.p ++ ("_datatype").data ≠ normSpaces ph
        ∧ predShort q.p ++ ("_datatype").data ≠ ph) :
    (recsLookup (processQuad m dtMap tmpl graph st q).records (subjectIdOf q.s)).map
        (fun r => recLookup r (predShort q.p ++ ("_datatype").data))
      = some (some (literalDatatypeName dt)) := by
  obtain ⟨qs, qp, qo⟩ := q
  dsimp only at ho hdt hot hlnd hph ⊢
  subst ho
  unfold processQuad
  simp only [quadCtx, objectValueOf]
  set ctx : QuadCtx := ⟨subjectIdOf qs, predShort qp, v⟩ with hctx
  set st1 : ExtState := { st with lastDT := some (literalDatatypeName dt) } with hst1
  obtain ⟨r0, hr0⟩ : ∃ r0, recsLookup (stepInitRecord ctx st1).records ctx.sid = some r0 :=
    ⟨_, recsLookup_stepInitRecord ctx st1⟩
  obtain ⟨kx, hkx, hlp⟩ :=
    stepLangOrPlain_lookup ctx (langOf (RdfObj.lit v dt lang?))
      (stepDatatype dtMap ctx (stepInitRecord ctx st1))
  have hdtcol : recsLookup (stepDatatype dtMap ctx (stepInitRecord ctx st1)).records ctx.sid
      = some (recSet r0 (ctx.pshort ++ ("_datatype").data) (literalDatatypeName dt)) := by
    rw [stepDatatype_lookup_eq dtMap ctx _ declared hdt, hr0, stepInitRecord_lastDT]
    rfl
  have hkxne : kx ≠ ctx.pshort ++ ("_datatype").data := by
    rcases hkx with rfl | ⟨l, hl, rfl⟩
    · intro h
      have hdrop := congrArg (List.drop ctx.pshort.length) h
      rw [List.drop_length, drop_append_self] at hdrop
      exact (by decide : (("_datatype").data : Str) ≠ []) hdrop.symm
    · intro h
      have hdrop := congrArg (List.drop ctx.pshort.length) h
      rw [drop_append_self, drop_append_self] at hdrop
      have hdd : (("_datatype").data : Str) = '_' :: ("datatype").data := rfl
      rw [hdd] at hdrop
      injection hdrop with _ h2
      exact hlnd l hl h2
  have hlook :
      recsLookup (stepObjectTemplate m ⟨qs, qp, RdfObj.lit v dt lang?⟩ ctx
        (stepPopulate tmpl graph ctx
          (stepLangOrPlain ctx (langOf (RdfObj.lit v dt lang?))
            (stepDatatype dtMap ctx (stepInitRecord ctx st1))))).records ctx.sid
      = some (recSet
          (populate_template_fields tmpl graph ctx.sid
            (recSet (recSet r0 (ctx.pshort ++ ("_datatype").data) (literalDatatypeName dt))
              kx ctx.oval))
          ctx.pshort ctx.oval) := by
    unfold stepObjectTemplate
    simp only [hot]
    rw [recsLookup_recsUpdate_self]
    unfold stepPopulate
    rw [recsLookup_recsUpdate_self]
    rw [hlp, hdtcol]
    rfl
  rw [hlook, Option.map_some']
  have hne1 : ctx.pshort ++ ("_datatype").data ≠ ctx.pshort := by
    intro h
    have hdrop := congrArg (List.drop ctx.pshort.length) h
    rw [List.drop_length, drop_append_self] at hdrop
    exact (by decide : (("_datatype").data : Str) ≠ []) hdrop
  rw [recLookup_recSet_ne _ _ hne1,
    populate_preserves_key tmpl graph ctx.sid _ _ hph,
    recLookup_recSet_ne _ _ (Ne.symm hkxne),
    recLookup_recSet_self]

/-- Counterexample to C5 as stated: the mapping declares datatype
`integer` for predicate `age`, and the quad's literal `42` carries no
datatype, so the claim requires `age_datatype = integer`; the code
instead stores `string` (the fallback computed from the absent
`o.datatype`), because the lingering `datatype_name` local always wins
over the mapping-declared name. -/
theorem C5_counterexample :
    (recLookup (build_datatype_map
        [⟨("om").data, ("http://ex.com/age").data,
          some (("http://www.w3.org/2001/XMLSchema#integer").data)⟩]).1
        (("age").data)
      = some (("integer").data))
    ∧ ((recsLookup (extract_data
        ⟨[], [⟨("om").data, ("http://ex.com/age").data,
               some (("http://www.w3.org/2001/XMLSchema#integer").data)⟩], []⟩
        (("T").data) []
        [⟨RdfSubj.uri (("http://ex.com/p1").data), ("http://ex.com/age").data,
          RdfObj.lit (("42").data) none none⟩]).records
        (("http://ex.com/p1").data)).map
        (fun r => recLookup r (("age_datatype").data))
      = some (some (("string").data)))
    ∧ (("string").data : Str) ≠ (("integer").data) :=
  ⟨by decide, by decide, by decide⟩

/-- Witness for C5 (amended) at the `age` scenario: the literal carries
no datatype, so the column receives `string`. -/
theorem C5_datatype_column_witness :
    (recsLookup (processQuad ⟨[], [], []⟩
        [((("age").data), (("integer").data))] (("T").data) [] ⟨[], [], none⟩
        ⟨RdfSubj.uri (("http://ex.com/p1").data), ("http://ex.com/age").data,
         RdfObj.lit (("42").data) none none⟩).records
        (subjectIdOf (RdfSubj.uri (("http://ex.com/p1").data)))).map
        (fun r => recLookup r (predShort (("http://ex.com/age").data) ++ ("_datatype").data))
      = some (some (literalDatatypeName none)) :=
  C5_datatype_column ⟨[], [], []⟩ [((("age").data), (("integer").data))] (("T").data)
    [] ⟨[], [], none⟩
    ⟨RdfSubj.uri (("http://ex.com/p1").data), ("http://ex.com/age").data,
     RdfObj.lit (("42").data) none none⟩
    (("42").data) none none (("integer").data)
    rfl (by decide) (by decide) (by decide) (by decide)

/-! Claim C6: case-insensitive column uniqueness. -/

/-- C6 (amended).  Only the plain predicate-name path of `extract_data`
(step 7, `insertPlainCol`) preserves case-insensitive uniqueness of the
column list: it appends the name only when no case-variant is already
present.  The original invariant fails in general, because the
subject-template path compares the un-lowered candidate against the
lowered existing names, and the datatype, language and object-template
placeholder paths check exact names only (see the counterexample). -/
theorem C6_plain_column_ci_unique (cols : List Str) (p : Str) (h : ciUnique cols) :
    ciUnique (insertPlainCol cols p) := by
  unfold insertPlainCol
  by_cases hm : lowerStr p ∈ cols.map lowerStr
  · rw [if_pos hm]
    exact h
  · rw [if_neg hm]
    unfold ciUnique at h ⊢
    rw [List.map_append]
    rw [List.nodup_append]
    refine ⟨h, List.nodup_singleton _, ?_⟩
    intro x hx hxs
    rcases List.mem_singleton.mp hxs with rfl
    exact hm hx

/-- Witness for C6 (amended): inserting a case-variant of an existing
column leaves the list unchanged, hence still case-insensitively
unique. -/
theorem C6_plain_column_ci_unique_witness :
    ciUnique (insertPlainCol [("name").data] (("Name").data)) :=
  C6_plain_column_ci_unique [("name").data] (("Name").data) (by decide)

/-- Counterexample to C6 as stated: the subject template with
placeholders `Id` and `iD` passes `extract_subject_template` and an
empty graph leaves the column list unchanged through `extract_data`,
yet the final columns `Id` and `iD` differ only by letter case. -/
theorem C6_counterexample :
    (extract_subject_template [((("http://e/\x7bId\x7d\x7biD\x7d").data), none)] []
      = .ok ((("http://e/\x7bId\x7d\x7biD\x7d").data), (("DefaultTermType").data),
             [("Id").data, ("iD").data]))
    ∧ (extract_data ⟨[((("http://e/\x7bId\x7d\x7biD\x7d").data), none)], [], []⟩
        (("http://e/\x7bId\x7d\x7biD\x7d").data) [("Id").data, ("iD").data] []).columns
      = [("Id").data, ("iD").data]
    ∧ ¬ ciUnique [("Id").data, ("iD").data] :=
  ⟨by decide, by decide, by decide⟩

/-! Claim C7: subject-template multiplicity (code bug). -/

/-- C7 (code bug).  `extract_subject_template` does raise `MappingError`
when the subject-map query yields zero results or a blank template —
but a mapping whose query yields TWO distinct subject templates is
silently accepted with the first row, contradicting the claim (and the
method's own docstring, "It ensures that only one subject map is
present"): extraction does not fail although more than one subject
template exists. -/
theorem C7_multiple_subject_templates_accepted :
    (extract_subject_template [] [] = .error RunErr.mappingError)
    ∧ (extract_subject_template [((("   ").data), none)] []
        = .error RunErr.mappingError)
    ∧ (extract_subject_template
        [((("http://e/\x7bid\x7d").data), none), ((("http://f/\x7bx\x7d").data), none)] []
        = .ok ((("http://e/\x7bid\x7d").data), (("DefaultTermType").data), [("id").data])) :=
  ⟨by decide, by decide, by decide⟩

/-! Claim C8: literal subject term types are rejected before extraction. -/

/-- C8.  For every run whose input files exist and parse, if the
resolved term type of the first subject-map row contains `Literal`,
`run` fails during `extract_subject_template` — with `MappingError`
when the template is also blank, else with `LiteralSubjectError` — and
neither the data-extraction pass nor the CSV write is reached, so no
row is emitted. -/
theorem C8_literal_subject_rejected (env : Env) (t : Str) (tt? : Option Str)
    (rest : List (Str × Option Str))
    (hrows : env.mapping.subjectRows = (t, tt?) :: rest)
    (hre : env.rdfExists = true) (hme : env.mappingExists = true)
    (hrp : env.rdfParseOk = true) (hmp : env.mappingParseOk = true)
    (hlit : isSubstrOf (("Literal").data) (resolveTermType tt?) = true) :
    ((run env).2 = .error RunErr.mappingError
      ∨ (run env).2 = .error RunErr.literalSubject)
    ∧ Effect.extracted ∉ (run env).1 ∧ Effect.wroteCsv ∉ (run env).1 := by
  have hest : ∃ e, (e = RunErr.mappingError ∨ e = RunErr.literalSubject)
      ∧ extract_subject_template env.mapping.subjectRows [] = .error e := by
    rw [hrows]
    unfold extract_subject_template
    dsimp only
    by_cases hb : pyStrip t = []
    · exact ⟨RunErr.mappingError, Or.inl rfl, by rw [if_pos hb]⟩
    · refine ⟨RunErr.literalSubject, Or.inr rfl, ?_⟩
      rw [if_neg hb, if_pos hlit]
  obtain ⟨e, he, hee⟩ := hest
  have hrun : run env = ([Effect.parseRdf, Effect.parseMapping], .error e) := by
    unfold run
    rw [hre, hme, hrp, hmp, hee]
    rfl
  rw [hrun]
  rcases he with rfl | rfl
  · exact ⟨Or.inl rfl, by decide, by decide⟩
  · exact ⟨Or.inr rfl, by decide, by decide⟩

/-- Witness for C8 at a concrete environment whose subject map declares
a literal term type. -/
theorem C8_literal_subject_rejected_witness :
    ((run ⟨true, true, true, true,
        ⟨[((("http://e/\x7bid\x7d").data),
           some (("http://w3id.org/rml/Literal").data))], [], []⟩, []⟩).2
        = .error RunErr.mappingError
      ∨ (run ⟨true, true, true, true,
        ⟨[((("http://e/\x7bid\x7d").data),
           some (("http://w3id.org/rml/Literal").data))], [], []⟩, []⟩).2
        = .error RunErr.literalSubject)
    ∧ Effect.extracted ∉ (run ⟨true, true, true, true,
        ⟨[((("http://e/\x7bid\x7d").data),
           some (("http://w3id.org/rml/Literal").data))], [], []⟩, []⟩).1
    ∧ Effect.wroteCsv ∉ (run ⟨true, true, true, true,
        ⟨[((("http://e/\x7bid\x7d").data),
           some (("http://w3id.org/rml/Literal").data))], [], []⟩, []⟩).1 :=
  C8_literal_subject_rejected
    ⟨true, true, true, true,
      ⟨[((("http://e/\x7bid\x7d").data),
         some (("http://w3id.org/rml/Literal").data))], [], []⟩, []⟩
    (("http://e/\x7bid\x7d").data) (some (("http://w3id.org/rml/Literal").data)) []
    rfl rfl rfl rfl rfl (by decide)

/-! Claim C9: missing input files are rejected before parsing. -/

/-- C9.  When the graph path or the mapping path does not exist, `run`
returns `MissingFileError` with an empty effect trace: no parse of
either input was attempted and no output was written —
`check_files_exist` precedes `load_rdf_file` and `write_to_csv` in
`run`. -/
theorem C9_missing_file_rejected (env : Env)
    (h : env.rdfExists = false ∨ env.mappingExists = false) :
    run env = ([], .error RunErr.missingFile) := by
  unfold run
  rcases h with h | h
  · rw [h]
    rfl
  · cases hr : env.rdfExists
    · rfl
    · rw [h]
      rfl

/-- Witness for C9: a run whose graph file is absent. -/
theorem C9_missing_file_rejected_witness :
    run ⟨false, true, true, true, ⟨[], [], []⟩, []⟩ = ([], .error RunErr.missingFile) :=
  C9_missing_file_rejected ⟨false, true, true, true, ⟨[], [], []⟩, []⟩ (Or.inl rfl)

/-! Claim C10: space normalization of subject-template placeholders. -/

theorem toNat_ofNat_valid (n : Nat) (h : n.isValidChar) : (Char.ofNat n).toNat = n := by
  unfold Char.ofNat Char.toNat
  rw [dif_pos h]
  rfl

theorem eq_space_of_lowerChar {c : Char} (h : lowerChar c = ' ') : c = ' ' := by
  unfold lowerChar at h
  by_cases hc : 65 ≤ c.toNat ∧ c.toNat ≤ 90
  · rw [if_pos hc] at h
    exfalso
    have hv : (c.toNat + 32).isValidChar := Or.inl (by omega)
    have ht := congrArg Char.toNat h
    rw [toNat_ofNat_valid _ hv] at ht
    have hsp : (' ').toNat = 32 := rfl
    omega
  · rwa [if_neg hc] at h

theorem space_mem_lowerStr {s : Str} (h : ' ' ∈ s) : ' ' ∈ lowerStr s := by
  have he : lowerChar ' ' = ' ' := rfl
  exact he ▸ List.mem_map_of_mem lowerChar h

theorem mem_space_lowerStr {s : Str} (h : ' ' ∈ lowerStr s) : ' ' ∈ s := by
  obtain ⟨c, hc, he⟩ := List.mem_map.mp h
  exact (eq_space_of_lowerChar he) ▸ hc

theorem space_not_mem_normSpaces (s : Str) : ' ' ∉ normSpaces s := by
  intro hm
  obtain ⟨c, _, hc⟩ := List.mem_map.mp hm
  by_cases hcs : c = ' '
  · rw [if_pos hcs] at hc
    exact absurd hc (by decide)
  · rw [if_neg hcs] at hc
    exact hcs hc

theorem normSpaces_eq_self {s : Str} (h : ' ' ∉ s) : normSpaces s = s := by
  unfold normSpaces
  induction s with
  | nil => rfl
  | cons c cs ih =>
    rw [List.map_cons]
    have hc : c ≠ ' ' := fun he => h (he ▸ List.mem_cons_self c cs)
    rw [if_neg hc, ih fun hm => h (List.mem_cons_of_mem c hm)]

theorem splitOnChar_ne_nil (sep : Char) (s : Str) : splitOnChar sep s ≠ [] := by
  cases s with
  | nil => simp [splitOnChar]
  | cons c cs =>
    unfold splitOnChar
    cases splitOnChar sep cs with
    | nil => simp
    | cons h t =>
      dsimp only
      by_cases hc : c = sep
      · rw [if_pos hc]
        simp
      · rw [if_neg hc]
        simp

theorem getLastD_cons_cons {α : Type} (x y : α) (ys : List α) (d : α) :
    (x :: y :: ys).getLastD d = (y :: ys).getLastD d := by
  simp [List.getLastD]

theorem getLastD_mem_of_ne_nil {l : List Str} (d : Str) (h : l ≠ []) :
    l.getLastD d ∈ l := by
  induction l with
  | nil => exact absurd rfl h
  | cons x xs ih =>
    cases xs with
    | nil => simp
    | cons y ys =>
      rw [getLastD_cons_cons]
      exact List.mem_cons_of_mem x (ih (by simp))

theorem mem_of_mem_splitOnChar (sep : Char) (s : Str) :
    ∀ part ∈ splitOnChar sep s, ∀ c ∈ part, c ∈ s := by
  induction s with
  | nil =>
    intro part hp c hc
    simp [splitOnChar] at hp
    subst hp
    cases hc
  | cons x xs ih =>
    intro part hp c hc
    unfold splitOnChar at hp
    rcases hsp : splitOnChar sep xs with _ | ⟨h, t⟩
    · exact absurd hsp (splitOnChar_ne_nil sep xs)
    · rw [hsp] at hp
      dsimp only at hp
      by_cases hx : x = sep
      · rw [if_pos hx] at hp
        rcases List.mem_cons.mp hp with rfl | hp'
        · cases hc
        · exact List.mem_cons_of_mem x (ih part (hsp ▸ hp') c hc)
      · rw [if_neg hx] at hp
        rcases List.mem_cons.mp hp with rfl | hp'
        · rcases List.mem_cons.mp hc with rfl | hc'
          · exact List.mem_cons_self c xs
          · exact List.mem_cons_of_mem x
              (ih h (hsp ▸ List.mem_cons_self h t) c hc')
        · exact List.mem_cons_of_mem x (ih part (hsp ▸ List.mem_cons_of_mem h hp') c hc)

theorem populate_preserves_spacekey (tmpl : Str) (graph : List Quad) (sid : Str)
    (r : Record) (k : Str)
    (hq : ∀ q ∈ graph, ¬ (' ' ∈ q.p)) (hk : ' ' ∈ k) :
    recLookup (populate_template_fields tmpl graph sid r) k = recLookup r k := by
  unfold populate_template_fields
  by_cases h0 : tmpl = []
  · simp [h0]
  simp only [if_neg h0]
  by_cases h1 : findPlaceholders tmpl = []
  · simp [h1]
  simp only [if_neg h1]
  by_cases h2 : (("_:blank_").data).isPrefixOf sid = true
  · simp only [h2, if_true]
    refine foldl_preserves_recLookup _ _ _ ?_ r
    intro r' q hqf
    have hqg : q ∈ graph := (List.mem_filter.mp hqf).1
    refine foldl_preserves_recLookup _ _ _ ?_ r'
    intro r'' ph _
    by_cases hm : lowerStr ph = lowerStr ((splitOnChar '/' q.p).getLastD [])
    · rw [if_pos hm]
      refine recLookup_recSet_ne r'' _ ?_
      intro he
      subst he
      have hsp1 : ' ' ∈ lowerStr k := space_mem_lowerStr hk
      rw [hm] at hsp1
      have hsp2 : ' ' ∈ (splitOnChar '/' q.p).getLastD [] := mem_space_lowerStr hsp1
      have hin : (splitOnChar '/' q.p).getLastD [] ∈ splitOnChar '/' q.p :=
        getLastD_mem_of_ne_nil _ (splitOnChar_ne_nil '/' q.p)
      exact hq q hqg (mem_of_mem_splitOnChar '/' q.p _ hin ' ' hsp2)
    · rw [if_neg hm]
  · simp only [h2, if_false, Bool.false_eq_true]
    cases hms : matchSegs (bindPattern tmpl) sid with
    | none => rfl
    | some vals =>
      refine foldl_preserves_recLookup _ _ _ ?_ r
      intro r' pv _
      refine recLookup_recSet_ne r' _ ?_
      intro he
      exact space_not_mem_normSpaces pv.1 (he ▸ hk)

theorem mem_ensureColumns_mono (names : List Str) :
    ∀ (cols : List Str) (x : Str), x ∈ cols → x ∈ ensureColumns cols names := by
  induction names with
  | nil => intro cols x hx; exact hx
  | cons n ns ih =>
    intro cols x hx
    show x ∈ ensureColumns (if n ∈ cols then cols else cols ++ [n]) ns
    refine ih _ x ?_
    by_cases hn : n ∈ cols
    · rw [if_pos hn]; exact hx
    · rw [if_neg hn]; exact List.mem_append_left _ hx

theorem mem_ensureColumns_self (names : List Str) :
    ∀ (cols : List Str), ∀ ph ∈ names, ph ∈ ensureColumns cols names := by
  induction names with
  | nil => intro cols ph hph; cases hph
  | cons n ns ih =>
    intro cols ph hph
    show ph ∈ ensureColumns (if n ∈ cols then cols else cols ++ [n]) ns
    rcases List.mem_cons.mp hph with rfl | hph'
    · refine mem_ensureColumns_mono ns _ ph ?_
      by_cases hn : ph ∈ cols
      · rw [if_pos hn]; exact hn
      · rw [if_neg hn]; exact List.mem_append_right _ (List.mem_singleton_self ph)
    · exact ih _ ph hph'

theorem mem_ensureColumns_cases (names : List Str) :
    ∀ (cols : List Str), ∀ c ∈ ensureColumns cols names, c ∈ cols ∨ c ∈ names := by
  induction names with
  | nil => intro cols c hc; exact Or.inl hc
  | cons n ns ih =>
    intro cols c hc
    have hc' : c ∈ ensureColumns (if n ∈ cols then cols else cols ++ [n]) ns := hc
    rcases ih _ c hc' with hin | hin
    · by_cases hn : n ∈ cols
      · rw [if_pos hn] at hin
        exact Or.inl hin
      · rw [if_neg hn] at hin
        rcases List.mem_append.mp hin with h | h
        · exact Or.inl h
        · exact Or.inr (by simp [List.mem_singleton.mp h])
    · exact Or.inr (List.mem_cons_of_mem n hin)

theorem extract_columns_from_template_mem (T : Str) :
    ∀ (cols : List Str), ∀ c ∈ extract_columns_from_template cols T,
    c ∈ cols ∨ ∃ ph ∈ findPlaceholdersDotall T, c = normSpaces ph := by
  unfold extract_columns_from_template
  generalize findPlaceholdersDotall T = phs
  induction phs with
  | nil => intro cols c hc; exact Or.inl hc
  | cons ph phs' ih =>
    intro cols c hc
    have hc' : c ∈ phs'.foldl _
        (if normSpaces ph ∈ cols.map lowerStr then cols else cols ++ [normSpaces ph]) := hc
    rcases ih _ c hc' with hin | ⟨ph', hph', he⟩
    · by_cases hn : normSpaces ph ∈ cols.map lowerStr
      · rw [if_pos hn] at hin
        exact Or.inl hin
      · rw [if_neg hn] at hin
        rcases List.mem_append.mp hin with h | h
        · exact Or.inl h
        · exact Or.inr ⟨ph, List.mem_cons_self ph phs', List.mem_singleton.mp h⟩
    · exact Or.inr ⟨ph', List.mem_cons_of_mem ph hph', he⟩

/-- C10.  Space normalization of subject-template placeholders: every
column `extract_columns_from_template` adds is the space-normalized
form of a subject-template placeholder; every record key
`populate_template_fields` writes (given that predicate URIs contain no
space, as N-Quads guarantees) is the space-normalized form of a
subject-template placeholder; whereas the object-template placeholder
path (`ensureColumns`, used by `stepObjectTemplate`) adds the
placeholder names verbatim, with no normalization. -/
theorem C10_space_normalization
    (cols : List Str) (T : Str) (tmpl : Str) (graph : List Quad) (sid : Str)
    (r : Record) (k : Str) (names : List Str)
    (hq : ∀ q ∈ graph, ¬ (' ' ∈ q.p)) :
    (∀ c ∈ extract_columns_from_template cols T,
        c ∈ cols ∨ ∃ ph ∈ findPlaceholdersDotall T, c = normSpaces ph)
    ∧ (recLookup (populate_template_fields tmpl graph sid r) k ≠ recLookup r k →
        ∃ ph ∈ findPlaceholders tmpl, k = normSpaces ph)
    ∧ (∀ ph ∈ names, ph ∈ ensureColumns cols names)
    ∧ (∀ c ∈ ensureColumns cols names, c ∈ cols ∨ c ∈ names) := by
  refine ⟨extract_columns_from_template_mem T cols, ?_, mem_ensureColumns_self names cols,
    mem_ensureColumns_cases names cols⟩
  intro hch
  by_cases hk : ' ' ∈ k
  · exact absurd (populate_preserves_spacekey tmpl graph sid r k hq hk) hch
  · by_contra hno
    push_neg at hno
    refine hch (populate_preserves_key tmpl graph sid r k ?_)
    intro ph hph
    refine ⟨hno ph hph, ?_⟩
    intro he
    apply hno ph hph
    rw [← he, normSpaces_eq_self hk]

/-- Witness for C10: a subject-template placeholder containing a space
becomes an underscored column, while the same name on the
object-template path is added verbatim. -/
theorem C10_space_normalization_witness :
    (∀ c ∈ extract_columns_from_template [] (("\x7ba b\x7d").data),
        c ∈ ([] : List Str)
        ∨ ∃ ph ∈ findPlaceholdersDotall (("\x7ba b\x7d").data), c = normSpaces ph)
    ∧ (recLookup (populate_template_fields ([]) [] (("s").data) []) (("x").data)
          ≠ recLookup [] (("x").data) →
        ∃ ph ∈ findPlaceholders ([]), (("x").data) = normSpaces ph)
    ∧ (∀ ph ∈ [("a b").data], ph ∈ ensureColumns [] [("a b").data])
    ∧ (∀ c ∈ ensureColumns [] [("a b").data], c ∈ ([] : List Str) ∨ c ∈ [("a b").data]) :=
  C10_space_normalization [] (("\x7ba b\x7d").data) ([]) [] (("s").data) [] (("x").data)
    [("a b").data] (by simp)

end RDFtoCSV
